import Mathlib

/-!
Shallow embedding of the Asset-Liquidity-Terminal core pipeline
(week bucketizer, rolling balance, period aggregator, window navigator),
translated from the React component source.

Modelling conventions:
* A JS `Date` is modelled by its calendar components `(year, month0, day)`
  with `month0` zero-based as returned by `getMonth()`.  All dates produced
  by the ledger normalizer carry the same time of day (the source adds 12h
  to every parsed date), so the JS timestamp order coincides with the
  lexicographic order on components, which we realise through the monotone
  injection `dOrd` (days are < 32 for valid dates).
* JS numbers holding monetary amounts are modelled as `Int` (exact
  arithmetic stand-in; every claim below is about value flows computed by
  identical additions on both sides, not about rounding).
* JS template-string keys (`` `${y}-${mm}-W${w}` `` and friends) are
  modelled by the same decimal formatting via `Nat.repr`, which is what
  `toString` on `Nat` unfolds to.
* The heterogeneous arrays of the source (weekly items vs aggregated
  items, which carry different sets of fields) are modelled by a single
  structure `Period` whose branch-specific fields are `Option`-valued;
  `none` models JS field absence (`undefined`).
-/

namespace ALT

/-- Calendar date as the source reads it off a JS `Date`:
`year = getFullYear()`, `month0 = getMonth()` (zero-based), `day = getDate()`. -/
structure JSDate where
  year : Nat
  month0 : Nat
  day : Nat
deriving DecidableEq

/-- A normalized ledger row: `{ date, amount, category }`. -/
structure DataItem where
  date : JSDate
  amount : Int
  category : String
deriving DecidableEq

/-- 初始资金 -/
def INITIAL_BALANCE : Int := 1016000

/-- 周划分逻辑: 1-7日=W1, 8-14日=W2, 15-21日=W3, 22日及以后=W4 -/
def getWeekIndex (day : Nat) : Nat :=
  if day ≤ 7 then 1 else if day ≤ 14 then 2 else if day ≤ 21 then 3 else 4

/-- JS `s.padStart(2, '0')`. -/
def padStart2 (s : String) : String :=
  String.mk (List.replicate (2 - s.length) (Char.ofNat 48)) ++ s

/-- The bucket key `` `${y}-${m.toString().padStart(2,'0')}-W${w}` ``
(month here is the one-based month). -/
def mkWeekKey (y m w : Nat) : String :=
  Nat.repr y ++ "-" ++ padStart2 (Nat.repr m) ++ "-W" ++ Nat.repr w

/-- Char-list helper: does the second list start with the first one? -/
def startsWithChars : List Char → List Char → Bool
  | [], _ => true
  | _ :: _, [] => false
  | p :: ps, c :: cs => p == c && startsWithChars ps cs

/-- Char-list helper: does the pattern occur anywhere in the list? -/
def hasSubChars (pat : List Char) : List Char → Bool
  | [] => startsWithChars pat []
  | c :: cs => startsWithChars pat (c :: cs) || hasSubChars pat cs

/-- JS `s.includes(pat)`: substring containment. -/
def strIncludes (s pat : String) : Bool :=
  hasSubChars pat.data s.data

/-- One week-of-month bucket (`weeks.push({...})` in the source). -/
structure WeekBucket where
  year : Nat
  month : Nat
  week : Nat
  key : String
  income : Int
  expense : Int
  emergencyFund : Int
deriving DecidableEq

/-- A freshly pushed bucket with zero sums. -/
def mkEmptyBucket (y m w : Nat) : WeekBucket :=
  { year := y, month := m, week := w, key := mkWeekKey y m w,
    income := 0, expense := 0, emergencyFund := 0 }

/-- The four buckets pushed for one month by the inner `for (w = 1..4)` loop. -/
def monthBuckets (y m : Nat) : List WeekBucket :=
  [mkEmptyBucket y m 1, mkEmptyBucket y m 2, mkEmptyBucket y m 3, mkEmptyBucket y m 4]

/-- The `while (curr <= end)` loop: starting at absolute month index `idx`
(`idx = year*12 + month0`), emit the buckets for `count` consecutive months. -/
def buildSkeleton : Nat → Nat → List WeekBucket
  | _, 0 => []
  | idx, c + 1 => monthBuckets (idx / 12) (idx % 12 + 1) ++ buildSkeleton (idx + 1) c

/-- Which bucket field a `populate` pass targets. -/
inductive FlowField where
  | income
  | expense
  | emergencyFund
deriving DecidableEq

/-- Read the targeted field. -/
def fieldVal (b : WeekBucket) : FlowField → Int
  | .income => b.income
  | .expense => b.expense
  | .emergencyFund => b.emergencyFund

/-- Overwrite the targeted field. -/
def setField (b : WeekBucket) (f : FlowField) (v : Int) : WeekBucket :=
  match f with
  | .income => { b with income := v }
  | .expense => { b with expense := v }
  | .emergencyFund => { b with emergencyFund := v }

/-- `target[field] += item.amount`. -/
def addField (b : WeekBucket) (f : FlowField) (a : Int) : WeekBucket :=
  setField b f (fieldVal b f + a)

/-- The key a transaction routes to:
`` `${getFullYear()}-${(getMonth()+1)...}-W${getWeekIndex(getDate())}` ``. -/
def itemWeekKey (t : DataItem) : String :=
  mkWeekKey t.date.year (t.date.month0 + 1) (getWeekIndex t.date.day)

/-- `weeks.find(w => w.key === key)` followed by the in-place `+=`:
update the first bucket carrying the key, drop the amount silently
when no bucket matches. -/
def updateFirst (k : String) (f : FlowField) (a : Int) : List WeekBucket → List WeekBucket
  | [] => []
  | b :: bs => if b.key = k then addField b f a :: bs else b :: updateFirst k f a bs

/-- The category-exclusion guard inside `populate`: only the income pass
skips items whose category contains 期初余额 or 现金备用. -/
def skipItem (f : FlowField) (t : DataItem) : Bool :=
  match f with
  | .income => strIncludes t.category "期初余额" || strIncludes t.category "现金备用"
  | _ => false

/-- The `populate` closure: route every item to its bucket. -/
def populate (items : List DataItem) (f : FlowField) (ws : List WeekBucket) : List WeekBucket :=
  items.foldl (fun acc t => if skipItem f t then acc else updateFirst (itemWeekKey t) f t.amount acc) ws

/-- A week with the rolled balance attached (`{...w, opening, closing, name}`). -/
structure BalancedWeek extends WeekBucket where
  opening : Int
  closing : Int
  name : String
deriving DecidableEq

/-- Display label `` `${year}年${month}月 第${week}周` ``. -/
def weekName (y m w : Nat) : String :=
  Nat.repr y ++ "年" ++ Nat.repr m ++ "月 第" ++ Nat.repr w ++ "周"

/-- The `weeks.map(...)` pass threading `bal` through the sequence. -/
def rollBalances (ws : List WeekBucket) (bal : Int) : List BalancedWeek :=
  match ws with
  | [] => []
  | w :: rest =>
    let opening := bal
    let closing := opening + w.income - w.expense
    { toWeekBucket := w, opening := opening, closing := closing,
      name := weekName w.year w.month w.week } :: rollBalances rest closing

/-- Monotone injection of a date into `Nat` realising the JS timestamp order
(valid dates have `day < 32`, so this is lexicographic on components). -/
def dOrd (d : JSDate) : Nat :=
  (d.year * 12 + d.month0) * 32 + d.day

/-- `Math.min(...dates)` starting from a first element. -/
def minimalDate (d0 : JSDate) (ds : List JSDate) : JSDate :=
  ds.foldl (fun a b => if dOrd b < dOrd a then b else a) d0

/-- `Math.max(...dates)` starting from a first element. -/
def maximalDate (d0 : JSDate) (ds : List JSDate) : JSDate :=
  ds.foldl (fun a b => if dOrd a < dOrd b then b else a) d0

/-- The body of `weeklyFullData` once `minDate`/`maxDate` are fixed:
10-year guard, skeleton, the three `populate` passes, then the rolling
balance starting from `INITIAL_BALANCE`. -/
def bucketsAndRoll (incomes expenses emergencyFunds : List DataItem)
    (minD maxD : JSDate) : List BalancedWeek :=
  if (maxD.year : Int) - (minD.year : Int) > 10 then []
  else
    let s := minD.year * 12 + minD.month0
    let e := maxD.year * 12 + maxD.month0
    rollBalances
      (populate emergencyFunds .emergencyFund
        (populate expenses .expense
          (populate incomes .income (buildSkeleton s (e + 1 - s)))))
      INITIAL_BALANCE

/-- 生成周流水 (`weeklyFullData` in the source): empty input short-circuits,
`minDate` ranges over all transaction dates, `maxDate` additionally
includes the current date. -/
def weeklyFullData (incomes expenses emergencyFunds : List DataItem)
    (today : JSDate) : List BalancedWeek :=
  match (incomes ++ expenses ++ emergencyFunds).map DataItem.date with
  | [] => []
  | d :: ds =>
      bucketsAndRoll incomes expenses emergencyFunds
        (minimalDate d ds) (maximalDate d (ds ++ [today]))

/-- One element of `aggregatedData`.  The source array is heterogeneous:
in the weekly branch the elements are the `BalancedWeek` objects themselves
(fields `week`, `key` present; no `subType`, `net` or member list), in the
other branches they are the folded groups (the converse).  `Option` fields
model JS field absence. -/
structure Period where
  name : String
  year : Nat
  month : Nat
  week : Option Nat
  key : Option String
  subType : Option String
  income : Int
  expense : Int
  emergencyFund : Int
  opening : Int
  closing : Int
  net : Option Int
  weeks : Option (List BalancedWeek)
deriving DecidableEq

/-- The weekly branch of `aggregatedData` returns the balanced weeks as-is;
this records that shape change into the common `Period` type. -/
def promote (w : BalancedWeek) : Period :=
  { name := w.name, year := w.year, month := w.month, week := some w.week,
    key := some w.key, subType := none, income := w.income, expense := w.expense,
    emergencyFund := w.emergencyFund, opening := w.opening, closing := w.closing,
    net := none, weeks := none }

/-- A group under construction in the `map` object of `aggregatedData`. -/
structure AggGroup where
  name : String
  year : Nat
  month : Nat
  subType : String
  income : Int
  expense : Int
  emergencyFund : Int
  opening : Int
  weeks : List BalancedWeek
deriving DecidableEq

/-- The `sub` label of a week: 上半月 for weeks 1-2, 下半月 for weeks 3-4
(empty when not semi-monthly). -/
def wGroupSub (isSemi : Bool) (w : BalancedWeek) : String :=
  if isSemi then (if w.week ≤ 2 then "上半月" else "下半月") else ""

/-- The group key `` `${y}-${m}-${sub}` `` resp. `` `${y}-${m}` ``. -/
def wGroupKey (isSemi : Bool) (w : BalancedWeek) : String :=
  if isSemi then
    Nat.repr w.year ++ "-" ++ Nat.repr w.month ++ "-" ++ wGroupSub isSemi w
  else Nat.repr w.year ++ "-" ++ Nat.repr w.month

/-- The group label `` `${y}年${m}月 ${sub}` `` resp. `` `${y}年${m}月` ``. -/
def wGroupName (isSemi : Bool) (w : BalancedWeek) : String :=
  if isSemi then
    Nat.repr w.year ++ "年" ++ Nat.repr w.month ++ "月 " ++ wGroupSub isSemi w
  else Nat.repr w.year ++ "年" ++ Nat.repr w.month ++ "月"

/-- The state of a group right after its creating iteration:
created with zero sums, then immediately `+=` and `push`. -/
def newGroup (isSemi : Bool) (w : BalancedWeek) : AggGroup :=
  { name := wGroupName isSemi w, year := w.year, month := w.month,
    subType := wGroupSub isSemi w, income := w.income, expense := w.expense,
    emergencyFund := 0, opening := w.opening, weeks := [w] }

/-- `map[key].income += w.income; map[key].expense += w.expense;
map[key].weeks.push(w)` on an existing group. -/
def foldWeekIntoGroup (g : AggGroup) (w : BalancedWeek) : AggGroup :=
  { g with income := g.income + w.income, expense := g.expense + w.expense,
           weeks := g.weeks ++ [w] }

/-- One iteration of the `weeklyFullData.forEach` grouping pass over the
insertion-ordered key/group association list. -/
def updateGroups (k : String) (isSemi : Bool) (w : BalancedWeek) :
    List (String × AggGroup) → List (String × AggGroup)
  | [] => [(k, newGroup isSemi w)]
  | (k0, g) :: rest =>
    if k0 = k then (k0, foldWeekIntoGroup g w) :: rest
    else (k0, g) :: updateGroups k isSemi w rest

/-- The whole grouping fold. -/
def buildGroups (isSemi : Bool) (wfd : List BalancedWeek) : List (String × AggGroup) :=
  wfd.foldl (fun acc w => updateGroups (wGroupKey isSemi w) isSemi w acc) []

/-- `weeklyFullData.find(w => w.year === y && w.month === m && w.week === k)`. -/
def findWeek (wfd : List BalancedWeek) (y m k : Nat) : Option BalancedWeek :=
  wfd.find? (fun w => w.year == y && w.month == m && w.week == k)

/-- `it.weeks[it.weeks.length - 1].closing`; every group is created with a
one-element `weeks` list, so the empty case is unreachable in the pipeline. -/
def lastClosing (ws : List BalancedWeek) : Int :=
  match ws.getLast? with
  | some w => w.closing
  | none => 0

/-- The `efValue` selection of the second `aggregatedData` pass. -/
def efValueOf (viewType : String) (wfd : List BalancedWeek) (g : AggGroup) : Int :=
  if viewType = "semi-monthly" then
    if g.subType = "上半月" then
      match findWeek wfd g.year g.month 2 with
      | some w2 => w2.emergencyFund
      | none => 0
    else if g.subType = "下半月" then
      match findWeek wfd g.year g.month 4 with
      | some w4 => w4.emergencyFund
      | none => 0
    else 0
  else if viewType = "monthly" then
    match findWeek wfd g.year g.month 4 with
    | some w4 => w4.emergencyFund
    | none => 0
  else 0

/-- The final shape of one aggregated period:
`{ ...it, emergencyFund: efValue, closing: last.closing, net: income - expense }`. -/
def finishGroup (viewType : String) (wfd : List BalancedWeek) (g : AggGroup) : Period :=
  { name := g.name, year := g.year, month := g.month, week := none, key := none,
    subType := some g.subType, income := g.income, expense := g.expense,
    emergencyFund := efValueOf viewType wfd g, opening := g.opening,
    closing := lastClosing g.weeks, net := some (g.income - g.expense),
    weeks := some g.weeks }

/-- 聚合逻辑 (`aggregatedData` in the source). -/
def aggregatedData (viewType : String) (wfd : List BalancedWeek) : List Period :=
  if viewType = "weekly" then wfd.map promote
  else
    let isSemi := viewType = "semi-monthly"
    (buildGroups isSemi wfd).map (fun kg => finishGroup viewType wfd kg.2)

/-- `getPeriodNameFromDate` from the source. -/
def getPeriodNameFromDate (date : JSDate) (viewType : String) : String :=
  let y := date.year
  let m := date.month0 + 1
  let d := date.day
  if viewType = "monthly" then Nat.repr y ++ "年" ++ Nat.repr m ++ "月"
  else if viewType = "semi-monthly" then
    Nat.repr y ++ "年" ++ Nat.repr m ++ "月 " ++
      (if getWeekIndex d ≤ 2 then "上半月" else "下半月")
  else Nat.repr y ++ "年" ++ Nat.repr m ++ "月 第" ++ Nat.repr (getWeekIndex d) ++ "周"

/-- The default-anchor `useEffect`: when the aggregated list is non-empty,
select the name of the period containing today if it occurs, else the name
of the last period; `none` models the effect not firing. -/
def defaultAnchor (aggregated : List Period) (viewType : String) (today : JSDate) :
    Option String :=
  if aggregated.length > 0 then
    let todayName := getPeriodNameFromDate today viewType
    if aggregated.any (fun d => d.name == todayName) then some todayName
    else (aggregated.getLast?).map Period.name
  else none

/-- `displayBlocks`: `slice(-4)` when the anchor is missing,
`slice(idx, idx + 4)` when it is found. -/
def displayBlocks (isDataLoaded : Bool) (aggregated : List Period)
    (selectedFilter : String) : List Period :=
  if !isDataLoaded then []
  else
    match aggregated.findIdx? (fun d => d.name == selectedFilter) with
    | none => aggregated.drop (aggregated.length - 4)
    | some idx => (aggregated.drop idx).take 4

/-- JS `findIndex`: `-1` when no element matches. -/
def findIndexJS (p : Period → Bool) (l : List Period) : Int :=
  match l.findIdx? p with
  | none => -1
  | some i => (i : Int)

/-- `aggregatedData[i].name`; out-of-bounds access cannot occur under the
source's guards, the empty-string default is unreachable. -/
def nameAtIdx (l : List Period) (i : Int) : String :=
  match l.get? i.toNat with
  | some p => p.name
  | none => ""

/-- The anchor-switching core of `handleMouseMove`: `towardPrev` is the
`diff > 0` branch (step to `currentIndex - 1`), otherwise step to
`currentIndex + 1`; both bounds saturate by leaving the filter unchanged. -/
def navStep (aggregated : List Period) (selectedFilter : String)
    (towardPrev : Bool) : String :=
  let currentIndex := findIndexJS (fun d => d.name == selectedFilter) aggregated
  if towardPrev then
    if currentIndex > 0 then nameAtIdx aggregated (currentIndex - 1)
    else selectedFilter
  else
    if currentIndex < (aggregated.length : Int) - 1 then
      nameAtIdx aggregated (currentIndex + 1)
    else selectedFilter

/-- Sum of the amounts of the items that a `populate` pass for field `f`
routes onto the key `k` (skipped items excluded). -/
def matchingSum (items : List DataItem) (f : FlowField) (k : String) : Int :=
  ((items.filter (fun t => !skipItem f t && (itemWeekKey t == k))).map DataItem.amount).sum

/-- The `(year, month, weekOfMonth)` coordinates of a balanced week. -/
def wTriple (w : BalancedWeek) : Nat × Nat × Nat :=
  (w.year, w.month, w.week)

/-- The `(year, month, weekOfMonth)` coordinates of a raw bucket. -/
def bTriple (b : WeekBucket) : Nat × Nat × Nat :=
  (b.year, b.month, b.week)

/-- The computed span of the bucket range, in months, from the month of the
earliest transaction date to the month of the later of the latest
transaction date and the current date (the spec's "computed date span";
`none` when there are no transactions). -/
def rangeMonthSpan (incomes expenses emergencyFunds : List DataItem)
    (today : JSDate) : Option Nat :=
  match (incomes ++ expenses ++ emergencyFunds).map DataItem.date with
  | [] => none
  | d :: ds =>
      let minD := minimalDate d ds
      let maxD := maximalDate d (ds ++ [today])
      some ((maxD.year * 12 + maxD.month0) - (minD.year * 12 + minD.month0))

/-- The year difference the source guard actually tests. -/
def rangeYearDiff (incomes expenses emergencyFunds : List DataItem)
    (today : JSDate) : Option Int :=
  match (incomes ++ expenses ++ emergencyFunds).map DataItem.date with
  | [] => none
  | d :: ds =>
      let minD := minimalDate d ds
      let maxD := maximalDate d (ds ++ [today])
      some ((maxD.year : Int) - (minD.year : Int))

/-- Concrete sample ledger used to instantiate the theorems below
(the spec's §8 scenario, March 2024). -/
def sampleIncomes : List DataItem := [⟨⟨2024, 2, 5⟩, 5000, "工资"⟩]

/-- Concrete sample expenses. -/
def sampleExpenses : List DataItem := [⟨⟨2024, 2, 10⟩, 2000, "餐饮"⟩]

/-- Concrete sample emergency-fund entries (week 2 value 10, week 4 value 20). -/
def sampleEF : List DataItem := [⟨⟨2024, 2, 9⟩, 10, "备用金"⟩, ⟨⟨2024, 2, 25⟩, 20, "备用金"⟩]

/-- Concrete sample current date. -/
def sampleToday : JSDate := ⟨2024, 2, 20⟩

/-- The weekly sequence of the sample ledger. -/
def sampleWeekly : List BalancedWeek :=
  weeklyFullData sampleIncomes sampleExpenses sampleEF sampleToday

/-- Monthly aggregation of the sample ledger. -/
def sampleMonthly : List Period := aggregatedData "monthly" sampleWeekly

/-- Semi-monthly aggregation of the sample ledger. -/
def sampleSemi : List Period := aggregatedData "semi-monthly" sampleWeekly

/-- Concrete incomes containing an excluded balance carry-in row. -/
def c6Incomes : List DataItem :=
  [⟨⟨2024, 2, 5⟩, 5000, "工资"⟩, ⟨⟨2024, 2, 6⟩, 1000000, "期初余额-2024"⟩]

/-- Concrete emergency-fund rows with the same excluded category string. -/
def c6EF : List DataItem := [⟨⟨2024, 2, 9⟩, 10, "期初余额-2024"⟩]

/-- Invariant of one key/group entry after the grouping fold has consumed
`processed`: its member list is exactly the key-filtered prefix in order,
its sums are the sums over members, its emergencyFund is still 0, and its
header fields come from its first member. -/
def goodGroup (isSemi : Bool) (processed : List BalancedWeek)
    (kg : String × AggGroup) : Prop :=
  kg.2.weeks = processed.filter (fun w => wGroupKey isSemi w == kg.1) ∧
  kg.2.income = (kg.2.weeks.map (fun w => w.income)).sum ∧
  kg.2.expense = (kg.2.weeks.map (fun w => w.expense)).sum ∧
  kg.2.emergencyFund = 0 ∧
  kg.2.weeks ≠ [] ∧
  (∀ w0 rest, kg.2.weeks = w0 :: rest →
      kg.1 = wGroupKey isSemi w0 ∧ kg.2.opening = w0.opening ∧
      kg.2.year = w0.year ∧ kg.2.month = w0.month ∧
      kg.2.subType = wGroupSub isSemi w0 ∧ kg.2.name = wGroupName isSemi w0)

/-- Invariant of the whole association list during the grouping fold. -/
def goodGroups (isSemi : Bool) (processed : List BalancedWeek)
    (acc : List (String × AggGroup)) : Prop :=
  (acc.map Prod.fst).Nodup ∧
  (∀ kg ∈ acc, goodGroup isSemi processed kg) ∧
  (∀ w ∈ processed, wGroupKey isSemi w ∈ acc.map Prod.fst)

/-- Decimal character list of a number, most significant digit first
(specification of what `Nat.toDigits 10` emits on positive input). -/
def decChars (n : Nat) : List Char :=
  ((Nat.digits 10 n).map Nat.digitChar).reverse

section ReprLemmas

theorem toDigitsCore_eq_decChars (f : Nat) :
    ∀ n, 0 < n → n < f → ∀ acc, Nat.toDigitsCore 10 f n acc = decChars n ++ acc := by
  induction f with
  | zero => intro n _ h; omega
  | succ f ih =>
    intro n hn hf acc
    show (if n / 10 = 0 then Nat.digitChar (n % 10) :: acc
          else Nat.toDigitsCore 10 f (n / 10) (Nat.digitChar (n % 10) :: acc))
        = decChars n ++ acc
    by_cases h10 : n / 10 = 0
    · rw [if_pos h10, decChars, Nat.digits_def' (by norm_num : (1 : ℕ) < 10) hn, h10]
      simp
    · rw [if_neg h10]
      have hn10 : 0 < n / 10 := Nat.pos_of_ne_zero h10
      have hlt : n / 10 < f := by
        have := Nat.div_lt_self hn (by norm_num : 1 < 10)
        omega
      rw [ih (n / 10) hn10 hlt]
      rw [decChars, decChars, Nat.digits_def' (by norm_num : (1 : ℕ) < 10) hn]
      simp

theorem toDigits_eq_decChars (n : Nat) (hn : 0 < n) :
    Nat.toDigits 10 n = decChars n := by
  have := toDigitsCore_eq_decChars (n + 1) n hn (Nat.lt_succ_self n) []
  simpa [Nat.toDigits] using this

theorem repr_data (n : Nat) : (Nat.repr n).data = Nat.toDigits 10 n := rfl

theorem digitChar_injOn : ∀ a, a < 10 → ∀ b, b < 10 →
    Nat.digitChar a = Nat.digitChar b → a = b := by decide

theorem digitChar_ne_dash : ∀ a, a < 10 → Nat.digitChar a ≠ Char.ofNat 45 := by decide

theorem digitChar_zero_iff : ∀ a, a < 10 → Nat.digitChar a = Char.ofNat 48 → a = 0 := by
  decide

theorem map_digitChar_injOn :
    ∀ (l1 l2 : List Nat), (∀ x ∈ l1, x < 10) → (∀ x ∈ l2, x < 10) →
      l1.map Nat.digitChar = l2.map Nat.digitChar → l1 = l2 := by
  intro l1
  induction l1 with
  | nil =>
    intro l2 _ _ h
    cases l2 with
    | nil => rfl
    | cons b bs => simp at h
  | cons a as ih =>
    intro l2 h1 h2 h
    cases l2 with
    | nil => simp at h
    | cons b bs =>
      simp only [List.map_cons, List.cons.injEq] at h
      have hab : a = b :=
        digitChar_injOn a (h1 a (List.mem_cons_self a as)) b
          (h2 b (List.mem_cons_self b bs)) h.1
      have htl : as = bs :=
        ih bs (fun x hx => h1 x (List.mem_cons_of_mem a hx))
          (fun x hx => h2 x (List.mem_cons_of_mem b hx)) h.2
      rw [hab, htl]

theorem toDigits_ten_zero : Nat.toDigits 10 0 = [Char.ofNat 48] := rfl

theorem decChars_ne_zero_char (b : Nat) (hb : b ≠ 0) :
    decChars b ≠ [Char.ofNat 48] := by
  intro h
  have hmap : (Nat.digits 10 b).map Nat.digitChar = [Char.ofNat 48] := by
    have := congrArg List.reverse h
    simpa [decChars] using this
  rcases hd : Nat.digits 10 b with - | ⟨d, ds⟩
  · exact (Nat.digits_ne_nil_iff_ne_zero.mpr hb) hd
  · rw [hd] at hmap
    cases ds with
    | cons e es => simp at hmap
    | nil =>
      simp only [List.map_cons, List.map_nil, List.cons.injEq, and_true] at hmap
      have hdlt : d < 10 := Nat.digits_lt_base (by norm_num) (by rw [hd]; simp)
      have hd0 : d = 0 := digitChar_zero_iff d hdlt hmap
      have := Nat.getLast_digit_ne_zero 10 hb
      rw [List.getLast_congr _ _ hd] at this
      · simp [hd0] at this
      · simp

theorem toDigits_ten_inj (a b : Nat) (h : Nat.toDigits 10 a = Nat.toDigits 10 b) :
    a = b := by
  by_cases ha : a = 0
  · by_cases hb : b = 0
    · rw [ha, hb]
    · exfalso
      rw [ha, toDigits_ten_zero, toDigits_eq_decChars b (Nat.pos_of_ne_zero hb)] at h
      exact decChars_ne_zero_char b hb h.symm
  · by_cases hb : b = 0
    · exfalso
      rw [hb, toDigits_ten_zero, toDigits_eq_decChars a (Nat.pos_of_ne_zero ha)] at h
      exact decChars_ne_zero_char a ha h
    · rw [toDigits_eq_decChars a (Nat.pos_of_ne_zero ha),
        toDigits_eq_decChars b (Nat.pos_of_ne_zero hb)] at h
      have hmap : (Nat.digits 10 a).map Nat.digitChar
          = (Nat.digits 10 b).map Nat.digitChar := by
        have := congrArg List.reverse h
        simpa [decChars] using this
      have hdig : Nat.digits 10 a = Nat.digits 10 b :=
        map_digitChar_injOn _ _ (fun x hx => Nat.digits_lt_base (by norm_num) hx)
          (fun x hx => Nat.digits_lt_base (by norm_num) hx) hmap
      calc a = Nat.ofDigits 10 (Nat.digits 10 a) := (Nat.ofDigits_digits 10 a).symm
        _ = Nat.ofDigits 10 (Nat.digits 10 b) := by rw [hdig]
        _ = b := Nat.ofDigits_digits 10 b

theorem repr_nat_inj {a b : Nat} (h : (Nat.repr a).data = (Nat.repr b).data) :
    a = b :=
  toDigits_ten_inj a b h

theorem repr_no_dash (n : Nat) : ∀ c ∈ (Nat.repr n).data, c ≠ Char.ofNat 45 := by
  intro c hc
  rw [repr_data] at hc
  by_cases hn : n = 0
  · rw [hn, toDigits_ten_zero] at hc
    simp only [List.mem_singleton] at hc
    rw [hc]
    decide
  · rw [toDigits_eq_decChars n (Nat.pos_of_ne_zero hn)] at hc
    simp only [decChars, List.mem_reverse, List.mem_map] at hc
    obtain ⟨d, hd, rfl⟩ := hc
    exact digitChar_ne_dash d (Nat.digits_lt_base (by norm_num) hd)

theorem data_append (s t : String) : (s ++ t).data = s.data ++ t.data := by
  cases s; cases t; rfl

end ReprLemmas

section KeyLemmas

theorem pad2_len : ∀ m, m < 13 → 0 < m → (padStart2 (Nat.repr m)).data.length = 2 := by
  decide

theorem pad2_inj : ∀ m, m < 13 → 0 < m → ∀ m2, m2 < 13 → 0 < m2 →
    (padStart2 (Nat.repr m)).data = (padStart2 (Nat.repr m2)).data → m = m2 := by
  decide

theorem repr_len_lt5 : ∀ w, w < 5 → 0 < w → (Nat.repr w).data.length = 1 := by
  decide

theorem mkWeekKey_inj {y m w y2 m2 w2 : Nat}
    (hm : 0 < m ∧ m < 13) (hm2 : 0 < m2 ∧ m2 < 13)
    (hw : 0 < w ∧ w < 5) (hw2 : 0 < w2 ∧ w2 < 5)
    (h : mkWeekKey y m w = mkWeekKey y2 m2 w2) : y = y2 ∧ m = m2 ∧ w = w2 := by
  have hd := congrArg String.data h
  rw [mkWeekKey, mkWeekKey] at hd
  simp only [data_append, List.append_assoc] at hd
  have hlen : (("-" : String).data ++ ((padStart2 (Nat.repr m)).data
        ++ (("-W" : String).data ++ (Nat.repr w).data))).length
      = (("-" : String).data ++ ((padStart2 (Nat.repr m2)).data
        ++ (("-W" : String).data ++ (Nat.repr w2).data))).length := by
    simp only [List.length_append, pad2_len m hm.2 hm.1, pad2_len m2 hm2.2 hm2.1,
      repr_len_lt5 w hw.2 hw.1, repr_len_lt5 w2 hw2.2 hw2.1]
  obtain ⟨hy, hrest⟩ := List.append_inj' hd hlen
  refine ⟨repr_nat_inj hy, ?_, ?_⟩
  · have h2 := List.append_cancel_left hrest
    have hlen2 : (padStart2 (Nat.repr m)).data.length
        = (padStart2 (Nat.repr m2)).data.length := by
      rw [pad2_len m hm.2 hm.1, pad2_len m2 hm2.2 hm2.1]
    exact pad2_inj m hm.2 hm.1 m2 hm2.2 hm2.1 (List.append_inj h2 hlen2).1
  · have h2 := List.append_cancel_left hrest
    have hlen2 : (padStart2 (Nat.repr m)).data.length
        = (padStart2 (Nat.repr m2)).data.length := by
      rw [pad2_len m hm.2 hm.1, pad2_len m2 hm2.2 hm2.1]
    have h3 := (List.append_inj h2 hlen2).2
    exact repr_nat_inj (List.append_cancel_left h3)

theorem mkEmptyBucket_key (y m w : Nat) :
    (mkEmptyBucket y m w).key = mkWeekKey y m w := rfl

theorem mem_monthBuckets {b : WeekBucket} {y m : Nat} (hb : b ∈ monthBuckets y m) :
    ∃ w, 0 < w ∧ w < 5 ∧ b = mkEmptyBucket y m w := by
  simp only [monthBuckets, List.mem_cons, List.mem_singleton, List.not_mem_nil] at hb
  rcases hb with rfl | rfl | rfl | rfl | h
  · exact ⟨1, by norm_num, by norm_num, rfl⟩
  · exact ⟨2, by norm_num, by norm_num, rfl⟩
  · exact ⟨3, by norm_num, by norm_num, rfl⟩
  · exact ⟨4, by norm_num, by norm_num, rfl⟩
  · cases h

theorem mem_buildSkeleton : ∀ {s c : Nat} {b : WeekBucket}, b ∈ buildSkeleton s c →
    ∃ i w, s ≤ i ∧ i < s + c ∧ 0 < w ∧ w < 5
      ∧ b = mkEmptyBucket (i / 12) (i % 12 + 1) w := by
  intro s c
  induction c generalizing s with
  | zero => intro b hb; simp [buildSkeleton] at hb
  | succ c ih =>
    intro b hb
    rcases List.mem_append.mp hb with hb | hb
    · obtain ⟨w, hw1, hw2, rfl⟩ := mem_monthBuckets hb
      exact ⟨s, w, Nat.le_refl s, by omega, hw1, hw2, rfl⟩
    · obtain ⟨i, w, hi1, hi2, hw1, hw2, rfl⟩ := ih hb
      exact ⟨i, w, by omega, by omega, hw1, hw2, rfl⟩

theorem monthBuckets_keys_nodup (y : Nat) {m : Nat} (hm : 0 < m ∧ m < 13) :
    ((monthBuckets y m).map WeekBucket.key).Nodup := by
  have hne : ∀ w w2 : Nat, 0 < w ∧ w < 5 → 0 < w2 ∧ w2 < 5 → w ≠ w2 →
      mkWeekKey y m w ≠ mkWeekKey y m w2 := by
    intro w w2 hw hw2 hne h
    exact hne (mkWeekKey_inj hm hm hw hw2 h).2.2
  simp only [monthBuckets, List.map_cons, List.map_nil, mkEmptyBucket_key]
  refine List.nodup_cons.mpr ⟨?_, List.nodup_cons.mpr ⟨?_, List.nodup_cons.mpr
    ⟨?_, List.nodup_cons.mpr ⟨by simp, List.nodup_nil⟩⟩⟩⟩ <;>
    simp only [List.mem_cons, List.mem_singleton, List.not_mem_nil, or_false]
  · rintro (h | h | h) <;>
      [exact hne 1 2 (by norm_num) (by norm_num) (by norm_num) h;
       exact hne 1 3 (by norm_num) (by norm_num) (by norm_num) h;
       exact hne 1 4 (by norm_num) (by norm_num) (by norm_num) h]
  · rintro (h | h) <;>
      [exact hne 2 3 (by norm_num) (by norm_num) (by norm_num) h;
       exact hne 2 4 (by norm_num) (by norm_num) (by norm_num) h]
  · intro h
    exact hne 3 4 (by norm_num) (by norm_num) (by norm_num) h

theorem buildSkeleton_keys_nodup : ∀ (s c : Nat),
    ((buildSkeleton s c).map WeekBucket.key).Nodup := by
  intro s c
  induction c generalizing s with
  | zero => simp [buildSkeleton]
  | succ c ih =>
    show ((monthBuckets (s / 12) (s % 12 + 1) ++ buildSkeleton (s + 1) c).map
        WeekBucket.key).Nodup
    rw [List.map_append, List.nodup_append]
    refine ⟨monthBuckets_keys_nodup _ ⟨Nat.succ_pos _, by omega⟩, ih (s + 1), ?_⟩
    intro k hk1 hk2
    obtain ⟨b1, hb1, rfl⟩ := List.mem_map.mp hk1
    obtain ⟨b2, hb2, hkey⟩ := List.mem_map.mp hk2
    obtain ⟨w1, hw11, hw12, rfl⟩ := mem_monthBuckets hb1
    obtain ⟨i, w2, hi1, hi2, hw21, hw22, rfl⟩ := mem_buildSkeleton hb2
    rw [mkEmptyBucket_key, mkEmptyBucket_key] at hkey
    obtain ⟨hy, hm, -⟩ := mkWeekKey_inj ⟨Nat.succ_pos _, by omega⟩
      ⟨Nat.succ_pos _, by omega⟩ ⟨hw11, hw12⟩ ⟨hw21, hw22⟩ hkey.symm
    omega

end KeyLemmas

section PopulateLemmas

theorem addField_key (b : WeekBucket) (f : FlowField) (a : Int) :
    (addField b f a).key = b.key := by cases f <;> rfl

theorem addField_year (b : WeekBucket) (f : FlowField) (a : Int) :
    (addField b f a).year = b.year := by cases f <;> rfl

theorem addField_month (b : WeekBucket) (f : FlowField) (a : Int) :
    (addField b f a).month = b.month := by cases f <;> rfl

theorem addField_week (b : WeekBucket) (f : FlowField) (a : Int) :
    (addField b f a).week = b.week := by cases f <;> rfl

theorem setField_fieldVal (b : WeekBucket) (f : FlowField) :
    setField b f (fieldVal b f) = b := by cases f <;> rfl

theorem setField_setField (b : WeekBucket) (f : FlowField) (v v2 : Int) :
    setField (setField b f v) f v2 = setField b f v2 := by cases f <;> rfl

theorem fieldVal_addField (b : WeekBucket) (f : FlowField) (a : Int) :
    fieldVal (addField b f a) f = fieldVal b f + a := by cases f <;> rfl

theorem setField_addField (b : WeekBucket) (f : FlowField) (a v : Int) :
    setField (addField b f a) f v = setField b f v := setField_setField b f _ v

theorem updateFirst_length (k : String) (f : FlowField) (a : Int) :
    ∀ ws : List WeekBucket, (updateFirst k f a ws).length = ws.length := by
  intro ws
  induction ws with
  | nil => rfl
  | cons b bs ih =>
    by_cases hb : b.key = k
    · simp [updateFirst, hb]
    · simp [updateFirst, hb, ih]

theorem updateFirst_keys (k : String) (f : FlowField) (a : Int) :
    ∀ ws : List WeekBucket,
      (updateFirst k f a ws).map WeekBucket.key = ws.map WeekBucket.key := by
  intro ws
  induction ws with
  | nil => rfl
  | cons b bs ih =>
    by_cases hb : b.key = k
    · simp [updateFirst, hb, addField_key]
    · simp [updateFirst, hb, ih]

theorem updateFirst_getq (k : String) (f : FlowField) (a : Int) :
    ∀ (ws : List WeekBucket), (ws.map WeekBucket.key).Nodup → ∀ i,
      (updateFirst k f a ws).get? i
        = (ws.get? i).map (fun b => if b.key = k then addField b f a else b) := by
  intro ws
  induction ws with
  | nil => intro _ i; rfl
  | cons b bs ih =>
    intro hnd i
    have hnd2 : (bs.map WeekBucket.key).Nodup := (List.nodup_cons.mp hnd).2
    by_cases hb : b.key = k
    · cases i with
      | zero => simp [updateFirst, hb]
      | succ j =>
        rw [show updateFirst k f a (b :: bs) = addField b f a :: bs by
          simp [updateFirst, hb]]
        rw [show (addField b f a :: bs).get? (j + 1) = bs.get? j from rfl,
          show (b :: bs).get? (j + 1) = bs.get? j from rfl]
        cases hq : bs.get? j with
        | none => rfl
        | some x =>
          have hxmem : x ∈ bs := List.get?_mem hq
          have hxk : x.key ≠ k := by
            intro hk
            have hmm : x.key ∈ bs.map WeekBucket.key := List.mem_map_of_mem _ hxmem
            rw [hk, ← hb] at hmm
            exact (List.nodup_cons.mp hnd).1 hmm
          simp [hxk]
    · cases i with
      | zero => simp [updateFirst, hb]
      | succ j =>
        rw [show updateFirst k f a (b :: bs) = b :: updateFirst k f a bs by
          simp [updateFirst, hb]]
        rw [show (b :: updateFirst k f a bs).get? (j + 1)
              = (updateFirst k f a bs).get? j from rfl,
          show (b :: bs).get? (j + 1) = bs.get? j from rfl]
        exact ih hnd2 j

theorem populate_cons (t : DataItem) (ts : List DataItem) (f : FlowField)
    (ws : List WeekBucket) :
    populate (t :: ts) f ws
      = populate ts f
          (if skipItem f t then ws else updateFirst (itemWeekKey t) f t.amount ws) := by
  by_cases hskip : skipItem f t <;> simp [populate, hskip]

theorem populate_length (f : FlowField) :
    ∀ (items : List DataItem) (ws : List WeekBucket),
      (populate items f ws).length = ws.length := by
  intro items
  induction items with
  | nil => intro ws; rfl
  | cons t ts ih =>
    intro ws
    rw [populate_cons]
    by_cases hskip : skipItem f t
    · rw [if_pos hskip, ih]
    · rw [if_neg hskip, ih, updateFirst_length]

theorem populate_keys (f : FlowField) :
    ∀ (items : List DataItem) (ws : List WeekBucket),
      (populate items f ws).map WeekBucket.key = ws.map WeekBucket.key := by
  intro items
  induction items with
  | nil => intro ws; rfl
  | cons t ts ih =>
    intro ws
    rw [populate_cons]
    by_cases hskip : skipItem f t
    · rw [if_pos hskip, ih]
    · rw [if_neg hskip, ih, updateFirst_keys]

theorem matchingSum_nil (f : FlowField) (k : String) : matchingSum [] f k = 0 := rfl

theorem matchingSum_cons (t : DataItem) (ts : List DataItem) (f : FlowField) (k : String) :
    matchingSum (t :: ts) f k
      = (if skipItem f t = false ∧ itemWeekKey t = k then t.amount else 0)
          + matchingSum ts f k := by
  by_cases h1 : skipItem f t
  · simp [matchingSum, List.filter_cons, h1]
  · by_cases h2 : itemWeekKey t = k
    · simp [matchingSum, List.filter_cons, h1, h2]
    · simp [matchingSum, List.filter_cons, h1, h2]

theorem populate_getq (f : FlowField) :
    ∀ (items : List DataItem) (ws : List WeekBucket),
      (ws.map WeekBucket.key).Nodup → ∀ i,
        (populate items f ws).get? i
          = (ws.get? i).map (fun b =>
              setField b f (fieldVal b f + matchingSum items f b.key)) := by
  intro items
  induction items with
  | nil =>
    intro ws _ i
    show ws.get? i = _
    cases hq : ws.get? i with
    | none => rfl
    | some b => simp [matchingSum_nil, setField_fieldVal]
  | cons t ts ih =>
    intro ws hnd i
    rw [populate_cons]
    by_cases hskip : skipItem f t
    · rw [if_pos hskip, ih ws hnd i]
      cases hq : ws.get? i with
      | none => rfl
      | some b => simp [matchingSum_cons, hskip]
    · rw [if_neg hskip]
      have hnd2 : ((updateFirst (itemWeekKey t) f t.amount ws).map WeekBucket.key).Nodup := by
        rw [updateFirst_keys]; exact hnd
      rw [ih _ hnd2 i, updateFirst_getq (itemWeekKey t) f t.amount ws hnd i]
      cases hq : ws.get? i with
      | none => rfl
      | some b =>
        simp only [Option.map_some', Option.map_map, Function.comp]
        by_cases hk : b.key = itemWeekKey t
        · rw [if_pos hk, matchingSum_cons, setField_addField, fieldVal_addField,
            addField_key, if_pos ⟨Bool.not_eq_true _ ▸ hskip, hk.symm⟩]
          congr 2
          omega
        · rw [if_neg hk, matchingSum_cons,
            if_neg (fun hcon => hk hcon.2.symm), zero_add]

theorem buildSkeleton_zero (s c : Nat) :
    ∀ b ∈ buildSkeleton s c, b.income = 0 ∧ b.expense = 0 ∧ b.emergencyFund = 0 := by
  intro b hb
  obtain ⟨i, w, -, -, -, -, rfl⟩ := mem_buildSkeleton hb
  exact ⟨rfl, rfl, rfl⟩

theorem buildSkeleton_length : ∀ (s c : Nat), (buildSkeleton s c).length = 4 * c := by
  intro s c
  induction c generalizing s with
  | zero => rfl
  | succ c ih =>
    show (monthBuckets (s / 12) (s % 12 + 1) ++ buildSkeleton (s + 1) c).length = _
    rw [List.length_append, ih (s + 1)]
    simp [monthBuckets]
    omega

/-- The whole pipeline over a fixed skeleton: per-position field values. -/
theorem pop3_getq (inc exp efs : List DataItem) (ws : List WeekBucket)
    (hnd : (ws.map WeekBucket.key).Nodup) (i : Nat) :
    (populate efs .emergencyFund
        (populate exp .expense (populate inc .income ws))).get? i
      = (ws.get? i).map (fun b =>
          { year := b.year, month := b.month, week := b.week, key := b.key,
            income := b.income + matchingSum inc FlowField.income b.key,
            expense := b.expense + matchingSum exp FlowField.expense b.key,
            emergencyFund := b.emergencyFund
                + matchingSum efs FlowField.emergencyFund b.key }) := by
  have hk1 : ((populate inc FlowField.income ws).map WeekBucket.key).Nodup := by
    rw [populate_keys]; exact hnd
  have hk2 : ((populate exp FlowField.expense
      (populate inc FlowField.income ws)).map WeekBucket.key).Nodup := by
    rw [populate_keys, populate_keys]; exact hnd
  rw [populate_getq FlowField.emergencyFund efs _ hk2 i,
    populate_getq FlowField.expense exp _ hk1 i,
    populate_getq FlowField.income inc ws hnd i]
  cases hq : ws.get? i with
  | none => rfl
  | some b => rfl

end PopulateLemmas

section RollLemmas

/-- Unfolding equation for one rolling step. -/
theorem rollBalances_cons (w : WeekBucket) (ws : List WeekBucket) (bal : Int) :
    rollBalances (w :: ws) bal =
      { toWeekBucket := w, opening := bal, closing := bal + w.income - w.expense,
        name := weekName w.year w.month w.week }
        :: rollBalances ws (bal + w.income - w.expense) := rfl

theorem rollBalances_mem (ws : List WeekBucket) (bal : Int) :
    ∀ v ∈ rollBalances ws bal, v.toWeekBucket ∈ ws := by
  induction ws generalizing bal with
  | nil => intro v hv; cases hv
  | cons w rest ih =>
    intro v hv
    rw [rollBalances_cons] at hv
    rcases List.mem_cons.mp hv with rfl | hv
    · exact List.mem_cons_self _ _
    · exact List.mem_cons_of_mem _ (ih _ v hv)

theorem rollBalances_length (ws : List WeekBucket) (bal : Int) :
    (rollBalances ws bal).length = ws.length := by
  induction ws generalizing bal with
  | nil => rfl
  | cons w rest ih => simp [rollBalances_cons, ih]

theorem rollBalances_closing_law (ws : List WeekBucket) (bal : Int) :
    ∀ w ∈ rollBalances ws bal, w.closing = w.opening + w.income - w.expense := by
  induction ws generalizing bal with
  | nil => intro w hw; cases hw
  | cons w rest ih =>
    intro v hv
    rw [rollBalances_cons] at hv
    rcases List.mem_cons.mp hv with hv | hv
    · simp [hv]
    · exact ih _ v hv

theorem rollBalances_head_opening (ws : List WeekBucket) (bal : Int)
    (h : 0 < (rollBalances ws bal).length) :
    ((rollBalances ws bal).get ⟨0, h⟩).opening = bal := by
  cases ws with
  | nil => simp [rollBalances] at h
  | cons w rest => rfl

theorem rollBalances_chain (ws : List WeekBucket) (bal : Int) :
    ∀ i (h : i + 1 < (rollBalances ws bal).length),
      ((rollBalances ws bal).get ⟨i + 1, h⟩).opening
        = ((rollBalances ws bal).get ⟨i, Nat.lt_of_succ_lt h⟩).closing := by
  induction ws generalizing bal with
  | nil => intro i h; simp [rollBalances] at h
  | cons w rest ih =>
    intro i h
    have hlen : i + 1 < rest.length + 1 := by
      simpa [rollBalances_cons, rollBalances_length] using h
    cases i with
    | zero =>
      have h0 : 0 < (rollBalances rest (bal + w.income - w.expense)).length := by
        rw [rollBalances_length]; omega
      exact rollBalances_head_opening rest (bal + w.income - w.expense) h0
    | succ j =>
      have hj : j + 1 < (rollBalances rest (bal + w.income - w.expense)).length := by
        rw [rollBalances_length]; omega
      exact ih (bal + w.income - w.expense) j hj

/-- Every pipeline output is a rolling pass started at `INITIAL_BALANCE`
over some bucket list. -/
theorem weeklyFullData_eq_roll (incomes expenses emergencyFunds : List DataItem)
    (today : JSDate) :
    ∃ ws, weeklyFullData incomes expenses emergencyFunds today
      = rollBalances ws INITIAL_BALANCE := by
  unfold weeklyFullData
  split
  · exact ⟨[], rfl⟩
  · unfold bucketsAndRoll
    split
    · exact ⟨[], rfl⟩
    · exact ⟨_, rfl⟩

/-- Unfolding `weeklyFullData` when the transaction list is non-empty. -/
theorem weeklyFullData_of_dates (inc exp efs : List DataItem) (today : JSDate)
    (d : JSDate) (ds : List JSDate)
    (hd : (inc ++ exp ++ efs).map DataItem.date = d :: ds) :
    weeklyFullData inc exp efs today
      = bucketsAndRoll inc exp efs (minimalDate d ds) (maximalDate d (ds ++ [today])) := by
  unfold weeklyFullData
  rw [hd]

theorem bucketsAndRoll_guard_true (inc exp efs : List DataItem) (minD maxD : JSDate)
    (hg : (maxD.year : Int) - (minD.year : Int) > 10) :
    bucketsAndRoll inc exp efs minD maxD = [] := by
  unfold bucketsAndRoll
  rw [if_pos hg]

theorem bucketsAndRoll_guard_false (inc exp efs : List DataItem) (minD maxD : JSDate)
    (hg : ¬ ((maxD.year : Int) - (minD.year : Int) > 10)) :
    bucketsAndRoll inc exp efs minD maxD
      = rollBalances
          (populate efs .emergencyFund (populate exp .expense (populate inc .income
            (buildSkeleton (minD.year * 12 + minD.month0)
              (maxD.year * 12 + maxD.month0 + 1 - (minD.year * 12 + minD.month0))))))
          INITIAL_BALANCE := by
  unfold bucketsAndRoll
  rw [if_neg hg]

/-- Either the pipeline yields nothing, or it is the rolled, populated
skeleton of some month range. -/
theorem weeklyFullData_eq_cases (inc exp efs : List DataItem) (today : JSDate) :
    weeklyFullData inc exp efs today = [] ∨
    ∃ s c, weeklyFullData inc exp efs today
      = rollBalances
          (populate efs .emergencyFund (populate exp .expense
            (populate inc .income (buildSkeleton s c))))
          INITIAL_BALANCE := by
  cases hd : (inc ++ exp ++ efs).map DataItem.date with
  | nil =>
    left
    unfold weeklyFullData
    rw [hd]
  | cons d ds =>
    rw [weeklyFullData_of_dates inc exp efs today d ds hd]
    by_cases hg : ((maximalDate d (ds ++ [today])).year : Int)
        - ((minimalDate d ds).year : Int) > 10
    · left
      exact bucketsAndRoll_guard_true inc exp efs _ _ hg
    · right
      exact ⟨_, _, bucketsAndRoll_guard_false inc exp efs _ _ hg⟩

/-- Per-bucket field characterization of the rolled, populated skeleton. -/
theorem rollPop3_bucket_sums (inc exp efs : List DataItem) (s c : Nat) (bal : Int) :
    ∀ b ∈ rollBalances
        (populate efs .emergencyFund (populate exp .expense
          (populate inc .income (buildSkeleton s c)))) bal,
      b.income = matchingSum inc FlowField.income b.key ∧
      b.expense = matchingSum exp FlowField.expense b.key ∧
      b.emergencyFund = matchingSum efs FlowField.emergencyFund b.key ∧
      b.key = mkWeekKey b.year b.month b.week ∧
      0 < b.month ∧ b.month < 13 ∧ 0 < b.week ∧ b.week < 5 := by
  intro b hb
  have hw : b.toWeekBucket ∈ populate efs .emergencyFund (populate exp .expense
      (populate inc .income (buildSkeleton s c))) := rollBalances_mem _ _ b hb
  obtain ⟨n, hn⟩ := List.mem_iff_get?.mp hw
  rw [pop3_getq inc exp efs _ (buildSkeleton_keys_nodup s c) n] at hn
  cases hq : (buildSkeleton s c).get? n with
  | none => rw [hq] at hn; cases hn
  | some b0 =>
    rw [hq] at hn
    simp only [Option.map_some', Option.some.injEq] at hn
    have hb0mem : b0 ∈ buildSkeleton s c := List.get?_mem hq
    obtain ⟨i, w, -, -, hw1, hw2, rfl⟩ := mem_buildSkeleton hb0mem
    have hy := congrArg WeekBucket.year hn
    have hm := congrArg WeekBucket.month hn
    have hwk := congrArg WeekBucket.week hn
    have hk := congrArg WeekBucket.key hn
    have hinc := congrArg WeekBucket.income hn
    have hexp := congrArg WeekBucket.expense hn
    have hef := congrArg WeekBucket.emergencyFund hn
    simp only [mkEmptyBucket] at hy hm hwk hk hinc hexp hef
    refine ⟨?_, ?_, ?_, ?_, ?_, ?_, ?_, ?_⟩
    · rw [← hinc, ← hk]; simp
    · rw [← hexp, ← hk]; simp
    · rw [← hef, ← hk]; simp
    · rw [← hk, ← hy, ← hm, ← hwk]
    · omega
    · omega
    · omega
    · omega

/-- Per-bucket field characterization of the full pipeline output. -/
theorem weeklyFullData_bucket_sums (inc exp efs : List DataItem) (today : JSDate) :
    ∀ b ∈ weeklyFullData inc exp efs today,
      b.income = matchingSum inc FlowField.income b.key ∧
      b.expense = matchingSum exp FlowField.expense b.key ∧
      b.emergencyFund = matchingSum efs FlowField.emergencyFund b.key ∧
      b.key = mkWeekKey b.year b.month b.week ∧
      0 < b.month ∧ b.month < 13 ∧ 0 < b.week ∧ b.week < 5 := by
  intro b hb
  rcases weeklyFullData_eq_cases inc exp efs today with hcase | ⟨s, c, hcase⟩
  · rw [hcase] at hb; cases hb
  · rw [hcase] at hb
    exact rollPop3_bucket_sums inc exp efs s c INITIAL_BALANCE b hb

end RollLemmas

section DateLemmas

theorem minimalDate_mem (d0 : JSDate) (ds : List JSDate) :
    minimalDate d0 ds ∈ d0 :: ds := by
  induction ds generalizing d0 with
  | nil => exact List.mem_singleton.mpr rfl
  | cons e es ih =>
    show minimalDate (if dOrd e < dOrd d0 then e else d0) es ∈ d0 :: e :: es
    rcases List.mem_cons.mp (ih (if dOrd e < dOrd d0 then e else d0)) with h | h
    · rw [h]
      by_cases hc : dOrd e < dOrd d0
      · simp [hc]
      · simp [hc]
    · exact List.mem_cons_of_mem _ (List.mem_cons_of_mem _ h)

theorem minimalDate_le (d0 : JSDate) (ds : List JSDate) :
    dOrd (minimalDate d0 ds) ≤ dOrd d0 := by
  induction ds generalizing d0 with
  | nil => exact Nat.le_refl _
  | cons e es ih =>
    show dOrd (minimalDate (if dOrd e < dOrd d0 then e else d0) es) ≤ dOrd d0
    refine le_trans (ih _) ?_
    by_cases hc : dOrd e < dOrd d0
    · simp [hc]; omega
    · simp [hc]

theorem maximalDate_mem (d0 : JSDate) (ds : List JSDate) :
    maximalDate d0 ds ∈ d0 :: ds := by
  induction ds generalizing d0 with
  | nil => exact List.mem_singleton.mpr rfl
  | cons e es ih =>
    show maximalDate (if dOrd d0 < dOrd e then e else d0) es ∈ d0 :: e :: es
    rcases List.mem_cons.mp (ih (if dOrd d0 < dOrd e then e else d0)) with h | h
    · rw [h]
      by_cases hc : dOrd d0 < dOrd e
      · simp [hc]
      · simp [hc]
    · exact List.mem_cons_of_mem _ (List.mem_cons_of_mem _ h)

theorem maximalDate_ge (d0 : JSDate) (ds : List JSDate) :
    dOrd d0 ≤ dOrd (maximalDate d0 ds) := by
  induction ds generalizing d0 with
  | nil => exact Nat.le_refl _
  | cons e es ih =>
    show dOrd d0 ≤ dOrd (maximalDate (if dOrd d0 < dOrd e then e else d0) es)
    refine le_trans ?_ (ih _)
    by_cases hc : dOrd d0 < dOrd e
    · simp [hc]; omega
    · simp [hc]

theorem monthIdx_le_of_dOrd_le {a b : JSDate} (h : dOrd a ≤ dOrd b) (hb : b.day ≤ 31) :
    a.year * 12 + a.month0 ≤ b.year * 12 + b.month0 := by
  unfold dOrd at h
  omega

end DateLemmas

section MatchingSumLemmas

theorem matchingSum_append (l1 l2 : List DataItem) (f : FlowField) (k : String) :
    matchingSum (l1 ++ l2) f k = matchingSum l1 f k + matchingSum l2 f k := by
  simp [matchingSum, List.filter_append]

theorem matchingSum_eq_zero (items : List DataItem) (f : FlowField) (k : String)
    (h : ∀ it ∈ items, itemWeekKey it ≠ k) : matchingSum items f k = 0 := by
  have : items.filter (fun t => !skipItem f t && (itemWeekKey t == k)) = [] := by
    rw [List.filter_eq_nil]
    intro t ht
    simp [h t ht]
  rw [matchingSum, this]
  rfl

theorem matchingSum_skipped (t : DataItem) (k : String)
    (hcat : skipItem FlowField.income t = true) :
    matchingSum [t] FlowField.income k = 0 := by
  rw [matchingSum_cons]
  simp [hcat, matchingSum_nil]

end MatchingSumLemmas

section TripleLemmas

theorem bTriple_addField (b : WeekBucket) (f : FlowField) (a : Int) :
    bTriple (addField b f a) = bTriple b := by
  simp [bTriple, addField_year, addField_month, addField_week]

theorem updateFirst_triples (k : String) (f : FlowField) (a : Int) :
    ∀ ws : List WeekBucket,
      (updateFirst k f a ws).map bTriple = ws.map bTriple := by
  intro ws
  induction ws with
  | nil => rfl
  | cons b bs ih =>
    by_cases hb : b.key = k
    · simp [updateFirst, hb, bTriple_addField]
    · simp [updateFirst, hb, ih]

theorem populate_triples (f : FlowField) :
    ∀ (items : List DataItem) (ws : List WeekBucket),
      (populate items f ws).map bTriple = ws.map bTriple := by
  intro items
  induction items with
  | nil => intro ws; rfl
  | cons t ts ih =>
    intro ws
    rw [populate_cons]
    by_cases hskip : skipItem f t
    · rw [if_pos hskip, ih]
    · rw [if_neg hskip, ih, updateFirst_triples]

theorem rollBalances_triples (ws : List WeekBucket) (bal : Int) :
    (rollBalances ws bal).map wTriple = ws.map bTriple := by
  induction ws generalizing bal with
  | nil => rfl
  | cons w rest ih =>
    rw [rollBalances_cons, List.map_cons, List.map_cons, ih]
    rfl

theorem monthBuckets_triples (y m : Nat) :
    (monthBuckets y m).map bTriple = [(y, m, 1), (y, m, 2), (y, m, 3), (y, m, 4)] := rfl

theorem mem_skel_triples {s c : Nat} {tr : Nat × Nat × Nat}
    (h : tr ∈ (buildSkeleton s c).map bTriple) :
    ∃ i w, s ≤ i ∧ i < s + c ∧ 0 < w ∧ w < 5 ∧ tr = (i / 12, i % 12 + 1, w) := by
  obtain ⟨b, hb, rfl⟩ := List.mem_map.mp h
  obtain ⟨i, w, h1, h2, h3, h4, rfl⟩ := mem_buildSkeleton hb
  exact ⟨i, w, h1, h2, h3, h4, rfl⟩

theorem skel_triples_filter (y m : Nat) : ∀ (c s : Nat),
    ((buildSkeleton s c).map bTriple).filter (fun tr => tr.1 == y && tr.2.1 == m)
      = if 0 < m ∧ m ≤ 12 ∧ s ≤ y * 12 + (m - 1) ∧ y * 12 + (m - 1) < s + c
        then [(y, m, 1), (y, m, 2), (y, m, 3), (y, m, 4)] else [] := by
  intro c
  induction c with
  | zero =>
    intro s
    rw [if_neg (by omega)]
    rfl
  | succ c ih =>
    intro s
    show ((monthBuckets (s / 12) (s % 12 + 1)
        ++ buildSkeleton (s + 1) c).map bTriple).filter _ = _
    rw [List.map_append, List.filter_append, ih (s + 1), monthBuckets_triples]
    by_cases hym : y = s / 12 ∧ m = s % 12 + 1
    · obtain ⟨hy, hm⟩ := hym
      have ht : y * 12 + (m - 1) = s := by omega
      rw [if_neg (by omega), if_pos (by omega)]
      subst hy
      subst hm
      simp
    · have hmf : ([((s / 12 : Nat), (s % 12 + 1 : Nat), (1 : Nat)),
          (s / 12, s % 12 + 1, 2), (s / 12, s % 12 + 1, 3),
          (s / 12, s % 12 + 1, 4)]).filter
            (fun tr => tr.1 == y && tr.2.1 == m) = [] := by
        have hne : ¬(s / 12 = y ∧ s % 12 + 1 = m) := by
          intro hcon
          exact hym ⟨hcon.1.symm, hcon.2.symm⟩
        have hb : ((s / 12 : Nat) == y && ((s % 12 + 1 : Nat) == m)) = false := by
          rcases not_and_or.mp hne with hne1 | hne1 <;> simp [hne1]
        simp [List.filter, hb]
      rw [hmf, List.nil_append]
      by_cases hc2 : 0 < m ∧ m ≤ 12 ∧ s + 1 ≤ y * 12 + (m - 1)
          ∧ y * 12 + (m - 1) < (s + 1) + c
      · rw [if_pos hc2, if_pos (by omega)]
      · rw [if_neg hc2, if_neg ?_]
        intro hcon
        apply hc2
        have hts : y * 12 + (m - 1) ≠ s := by
          intro ht
          exact hym ⟨by omega, by omega⟩
        exact ⟨hcon.1, hcon.2.1, by omega, by omega⟩

theorem skel_triples_nodup : ∀ (c s : Nat),
    ((buildSkeleton s c).map bTriple).Nodup := by
  intro c
  induction c with
  | zero => intro s; simp [buildSkeleton]
  | succ c ih =>
    intro s
    show ((monthBuckets (s / 12) (s % 12 + 1) ++ buildSkeleton (s + 1) c).map
        bTriple).Nodup
    rw [List.map_append, List.nodup_append, monthBuckets_triples]
    refine ⟨by simp, ih (s + 1), ?_⟩
    intro tr htr1 htr2
    obtain ⟨i, w, hi1, hi2, -, -, htr⟩ := mem_skel_triples htr2
    simp only [List.mem_cons, List.mem_singleton, List.not_mem_nil, or_false] at htr1
    rcases htr1 with h | h | h | h <;>
      (rw [h] at htr;
       have h1 : s / 12 = i / 12 := congrArg Prod.fst htr;
       have h2 : s % 12 + 1 = i % 12 + 1 := congrArg (fun p => p.2.1) htr;
       omega)

end TripleLemmas

section GroupKeyLemmas

theorem append_dash_inj : ∀ {a c b e : List Char},
    Char.ofNat 45 ∉ a → Char.ofNat 45 ∉ c →
    a ++ Char.ofNat 45 :: b = c ++ Char.ofNat 45 :: e → a = c ∧ b = e := by
  intro a
  induction a with
  | nil =>
    intro c b e _ hc h
    cases c with
    | nil => simpa using h
    | cons x cs =>
      simp only [List.nil_append, List.cons_append, List.cons.injEq] at h
      rw [← h.1] at hc
      exact absurd (List.mem_cons_self _ _) hc
  | cons x as ih =>
    intro c b e ha hc h
    cases c with
    | nil =>
      simp only [List.cons_append, List.nil_append, List.cons.injEq] at h
      rw [h.1] at ha
      exact absurd (List.mem_cons_self _ _) ha
    | cons y cs =>
      simp only [List.cons_append, List.cons.injEq] at h
      have ha2 : Char.ofNat 45 ∉ as := fun hx => ha (List.mem_cons_of_mem _ hx)
      have hc2 : Char.ofNat 45 ∉ cs := fun hx => hc (List.mem_cons_of_mem _ hx)
      obtain ⟨h1, h2⟩ := ih ha2 hc2 h.2
      exact ⟨by rw [h.1, h1], h2⟩

theorem dash_data : ("-" : String).data = [Char.ofNat 45] := rfl

theorem wGroupKey_monthly_inj {w v : BalancedWeek}
    (h : wGroupKey false w = wGroupKey false v) :
    w.year = v.year ∧ w.month = v.month := by
  have hd := congrArg String.data h
  simp only [wGroupKey, Bool.false_eq_true, if_false, data_append, dash_data,
    List.append_assoc, List.singleton_append] at hd
  obtain ⟨h1, h2⟩ := append_dash_inj
    (fun hmem => repr_no_dash w.year _ hmem rfl)
    (fun hmem => repr_no_dash v.year _ hmem rfl) hd
  exact ⟨repr_nat_inj h1, repr_nat_inj h2⟩

end GroupKeyLemmas

section GroupFoldLemmas

theorem foldWeekIntoGroup_weeks (g : AggGroup) (w : BalancedWeek) :
    (foldWeekIntoGroup g w).weeks = g.weeks ++ [w] := rfl

theorem updateGroups_notmem (k : String) (isSemi : Bool) (w : BalancedWeek) :
    ∀ acc : List (String × AggGroup), k ∉ acc.map Prod.fst →
      updateGroups k isSemi w acc = acc ++ [(k, newGroup isSemi w)] := by
  intro acc
  induction acc with
  | nil => intro _; rfl
  | cons kg rest ih =>
    intro hk
    rcases kg with ⟨k0, g0⟩
    have hne : k0 ≠ k := fun h => hk (by simp [h])
    show updateGroups k isSemi w ((k0, g0) :: rest) = _
    rw [updateGroups, if_neg hne, ih (fun h => hk (by simp [h]))]
    rfl

theorem updateGroups_mem (k : String) (isSemi : Bool) (w : BalancedWeek) :
    ∀ (pre : List (String × AggGroup)) (post : List (String × AggGroup)) (g : AggGroup),
      k ∉ pre.map Prod.fst →
      updateGroups k isSemi w (pre ++ (k, g) :: post)
        = pre ++ (k, foldWeekIntoGroup g w) :: post := by
  intro pre
  induction pre with
  | nil =>
    intro post g _
    show updateGroups k isSemi w ((k, g) :: post) = _
    rw [updateGroups, if_pos rfl]
    rfl
  | cons kg rest ih =>
    intro post g hk
    rcases kg with ⟨k0, g0⟩
    have hne : k0 ≠ k := fun h => hk (by simp [h])
    show updateGroups k isSemi w ((k0, g0) :: (rest ++ (k, g) :: post)) = _
    rw [updateGroups, if_neg hne, ih post g (fun h => hk (by simp [h]))]
    rfl

theorem mem_key_decomp : ∀ (acc : List (String × AggGroup)) (k : String),
    k ∈ acc.map Prod.fst →
    ∃ pre g post, acc = pre ++ (k, g) :: post ∧ k ∉ pre.map Prod.fst := by
  intro acc
  induction acc with
  | nil => intro k h; simp at h
  | cons kg rest ih =>
    intro k h
    rcases kg with ⟨k0, g0⟩
    by_cases hk : k0 = k
    · exact ⟨[], g0, rest, by rw [hk]; rfl, by simp⟩
    · have h2 : k ∈ rest.map Prod.fst := by
        simp only [List.map_cons, List.mem_cons] at h
        rcases h with h | h
        · exact absurd h.symm hk
        · exact h
      obtain ⟨pre, g, post, heq, hpre⟩ := ih k h2
      refine ⟨(k0, g0) :: pre, g, post, by rw [heq]; rfl, ?_⟩
      intro hcon
      simp only [List.map_cons, List.mem_cons] at hcon
      rcases hcon with hcon | hcon
      · exact hk hcon.symm
      · exact hpre hcon

theorem goodGroup_extend_other (isSemi : Bool) (processed : List BalancedWeek)
    (w : BalancedWeek) (kg : String × AggGroup)
    (h : goodGroup isSemi processed kg) (hne : kg.1 ≠ wGroupKey isSemi w) :
    goodGroup isSemi (processed ++ [w]) kg := by
  obtain ⟨hw, hi, he, hef, hnemp, hhead⟩ := h
  refine ⟨?_, hi, he, hef, hnemp, hhead⟩
  rw [List.filter_append]
  have hb : (wGroupKey isSemi w == kg.1) = false :=
    beq_eq_false_iff_ne.mpr (fun hcon => hne hcon.symm)
  simp only [List.filter, hb, List.append_nil]
  exact hw

theorem goodGroup_fold (isSemi : Bool) (processed : List BalancedWeek)
    (w : BalancedWeek) (g : AggGroup)
    (h : goodGroup isSemi processed (wGroupKey isSemi w, g)) :
    goodGroup isSemi (processed ++ [w])
      (wGroupKey isSemi w, foldWeekIntoGroup g w) := by
  obtain ⟨hw, hi, he, hef, hnemp, hhead⟩ := h
  obtain ⟨w0, rest0, hw0⟩ := List.exists_cons_of_ne_nil hnemp
  refine ⟨?_, ?_, ?_, hef, by simp [foldWeekIntoGroup_weeks], ?_⟩
  · show g.weeks ++ [w] = _
    rw [List.filter_append]
    have hb : (wGroupKey isSemi w == wGroupKey isSemi w) = true := by simp
    simp only [List.filter, hb]
    rw [hw]
  · show g.income + w.income = _
    rw [foldWeekIntoGroup_weeks, List.map_append, List.sum_append, hi]
    simp
  · show g.expense + w.expense = _
    rw [foldWeekIntoGroup_weeks, List.map_append, List.sum_append, he]
    simp
  · intro w1 rest1 h1
    rw [foldWeekIntoGroup_weeks, hw0] at h1
    simp only [List.cons_append, List.cons.injEq] at h1
    obtain ⟨hk0, hop, hyr, hmo, hsub, hname⟩ := hhead w0 rest0 hw0
    rw [← h1.1]
    exact ⟨hk0, hop, hyr, hmo, hsub, hname⟩

theorem goodGroup_new (isSemi : Bool) (processed : List BalancedWeek)
    (w : BalancedWeek)
    (hnoprev : ∀ v ∈ processed, wGroupKey isSemi v ≠ wGroupKey isSemi w) :
    goodGroup isSemi (processed ++ [w]) (wGroupKey isSemi w, newGroup isSemi w) := by
  have hfp : processed.filter
      (fun v => wGroupKey isSemi v == wGroupKey isSemi w) = [] := by
    rw [List.filter_eq_nil]
    intro v hv
    simp [hnoprev v hv]
  refine ⟨?_, by simp [newGroup], by simp [newGroup], rfl, by simp [newGroup], ?_⟩
  · show [w] = _
    rw [List.filter_append, hfp]
    have hb : (wGroupKey isSemi w == wGroupKey isSemi w) = true := by simp
    simp [List.filter, hb]
  · intro w1 rest1 h1
    simp only [newGroup, List.cons.injEq] at h1
    rw [← h1.1]
    exact ⟨rfl, rfl, rfl, rfl, rfl, rfl⟩

theorem goodGroups_step (isSemi : Bool) (processed : List BalancedWeek)
    (acc : List (String × AggGroup)) (w : BalancedWeek)
    (hg : goodGroups isSemi processed acc) :
    goodGroups isSemi (processed ++ [w])
      (updateGroups (wGroupKey isSemi w) isSemi w acc) := by
  obtain ⟨hnd, hgood, hcomp⟩ := hg
  by_cases hmem : wGroupKey isSemi w ∈ acc.map Prod.fst
  · obtain ⟨pre, g, post, rfl, hpre⟩ := mem_key_decomp acc _ hmem
    rw [updateGroups_mem _ _ _ pre post g hpre]
    have hkeys : (pre ++ (wGroupKey isSemi w, foldWeekIntoGroup g w) :: post).map Prod.fst
        = (pre ++ (wGroupKey isSemi w, g) :: post).map Prod.fst := by simp
    have hndkeys := hnd
    rw [List.map_append, List.map_cons] at hndkeys
    refine ⟨by rw [hkeys]; exact hnd, ?_, ?_⟩
    · intro kg hkg
      rcases List.mem_append.mp hkg with hkg | hkg
      · have hkne : kg.1 ≠ wGroupKey isSemi w := by
          intro he
          exact hpre (he ▸ List.mem_map_of_mem Prod.fst hkg)
        exact goodGroup_extend_other isSemi processed w kg
          (hgood kg (List.mem_append_left _ hkg)) hkne
      · rcases List.mem_cons.mp hkg with rfl | hkg
        · exact goodGroup_fold isSemi processed w g
            (hgood (wGroupKey isSemi w, g) (by simp))
        · have hkne : kg.1 ≠ wGroupKey isSemi w := by
            intro he
            have h1 : kg.1 ∈ post.map Prod.fst := List.mem_map_of_mem Prod.fst hkg
            rw [he] at h1
            have := (List.nodup_append.mp hndkeys).2.1
            exact (List.nodup_cons.mp this).1 h1
          exact goodGroup_extend_other isSemi processed w kg
            (hgood kg (List.mem_append_right _ (List.mem_cons_of_mem _ hkg))) hkne
    · intro v hv
      rcases List.mem_append.mp hv with hv | hv
      · rw [hkeys]
        exact hcomp v hv
      · simp only [List.mem_singleton] at hv
        rw [hv, hkeys, List.map_append, List.map_cons]
        exact List.mem_append_right _ (List.mem_cons_self _ _)
  · rw [updateGroups_notmem _ _ _ acc hmem]
    refine ⟨?_, ?_, ?_⟩
    · rw [List.map_append, List.nodup_append]
      refine ⟨hnd, by simp, ?_⟩
      intro x hx1 hx2
      simp only [List.map_cons, List.map_nil, List.mem_singleton] at hx2
      rw [hx2] at hx1
      exact hmem hx1
    · intro kg hkg
      rcases List.mem_append.mp hkg with hkg | hkg
      · have hkne : kg.1 ≠ wGroupKey isSemi w := by
          intro he
          exact hmem (he ▸ List.mem_map_of_mem Prod.fst hkg)
        exact goodGroup_extend_other isSemi processed w kg (hgood kg hkg) hkne
      · simp only [List.mem_singleton] at hkg
        rw [hkg]
        refine goodGroup_new isSemi processed w ?_
        intro v hv hcon
        exact hmem (hcon ▸ hcomp v hv)
    · intro v hv
      rcases List.mem_append.mp hv with hv | hv
      · rw [List.map_append]
        exact List.mem_append_left _ (hcomp v hv)
      · simp only [List.mem_singleton] at hv
        rw [hv, List.map_append]
        exact List.mem_append_right _ (by simp)

theorem goodGroups_foldl (isSemi : Bool) :
    ∀ (l processed : List BalancedWeek) (acc : List (String × AggGroup)),
      goodGroups isSemi processed acc →
      goodGroups isSemi (processed ++ l)
        (l.foldl (fun a w2 => updateGroups (wGroupKey isSemi w2) isSemi w2 a) acc) := by
  intro l
  induction l with
  | nil => intro processed acc h; simpa using h
  | cons w rest ih =>
    intro processed acc h
    have h2 := goodGroups_step isSemi processed acc w h
    have h3 := ih (processed ++ [w]) _ h2
    simpa [List.append_assoc] using h3

theorem buildGroups_good (isSemi : Bool) (wfd : List BalancedWeek) :
    goodGroups isSemi wfd (buildGroups isSemi wfd) := by
  have h0 : goodGroups isSemi [] [] := ⟨List.nodup_nil, by simp, by simp⟩
  have h := goodGroups_foldl isSemi wfd [] [] h0
  simpa [buildGroups] using h

theorem findWeek_of_nodup (wfd : List BalancedWeek)
    (hnd : (wfd.map wTriple).Nodup) (w4 : BalancedWeek) (hmem : w4 ∈ wfd)
    (y m k : Nat) (htr : wTriple w4 = (y, m, k)) :
    findWeek wfd y m k = some w4 := by
  have hy : w4.year = y := congrArg Prod.fst htr
  have hm : w4.month = m := congrArg (fun pr => pr.2.1) htr
  have hk : w4.week = k := congrArg (fun pr => pr.2.2) htr
  cases hf : wfd.find? (fun w => w.year == y && w.month == m && w.week == k) with
  | none =>
    have := List.find?_eq_none.mp hf w4 hmem
    simp [hy, hm, hk] at this
  | some x =>
    have hpred := List.find?_some hf
    have hxmem := List.mem_of_find?_eq_some hf
    simp only [Bool.and_eq_true, beq_iff_eq] at hpred
    have hxtr : wTriple x = (y, m, k) := by
      simp [wTriple, hpred.1.1, hpred.1.2, hpred.2]
    have hxw : x = w4 :=
      List.inj_on_of_nodup_map hnd hxmem hmem (by rw [hxtr, htr])
    rw [findWeek, hf, hxw]

theorem filter_coords_map_triple (l : List BalancedWeek) (y m : Nat) :
    (l.filter (fun w => w.year == y && w.month == m)).map wTriple
      = (l.map wTriple).filter (fun tr => tr.1 == y && tr.2.1 == m) := by
  rw [List.filter_map]
  rfl

end GroupFoldLemmas

/-- C1: in the weekly sequence produced by the rolling-balance pass the
opening of the first emitted week is the fixed starting balance, every
later opening equals the previous closing, and every week satisfies
`closing = opening + income - expense`, across the whole sequence, for
every transaction input. -/
theorem c1_balance_chain (incomes expenses emergencyFunds : List DataItem)
    (today : JSDate) :
    (∀ w0 rest, weeklyFullData incomes expenses emergencyFunds today = w0 :: rest →
        w0.opening = INITIAL_BALANCE) ∧
    (∀ w ∈ weeklyFullData incomes expenses emergencyFunds today,
        w.closing = w.opening + w.income - w.expense) ∧
    (∀ i (h : i + 1 < (weeklyFullData incomes expenses emergencyFunds today).length),
        ((weeklyFullData incomes expenses emergencyFunds today).get ⟨i + 1, h⟩).opening
          = ((weeklyFullData incomes expenses emergencyFunds today).get
              ⟨i, Nat.lt_of_succ_lt h⟩).closing) := by
  obtain ⟨ws, hw⟩ := weeklyFullData_eq_roll incomes expenses emergencyFunds today
  rw [hw]
  refine ⟨?_, rollBalances_closing_law ws INITIAL_BALANCE,
    rollBalances_chain ws INITIAL_BALANCE⟩
  intro w0 rest h0
  have hlen : 0 < (rollBalances ws INITIAL_BALANCE).length := by
    rw [h0]; exact Nat.succ_pos _
  have := rollBalances_head_opening ws INITIAL_BALANCE hlen
  rwa [show (rollBalances ws INITIAL_BALANCE).get ⟨0, hlen⟩ = w0 by
    simp [List.get, h0]] at this

/-- Witness for C1 at a concrete two-transaction input. -/
theorem c1_balance_chain_witness :
    ((weeklyFullData [⟨⟨2024, 2, 5⟩, 5000, "工资"⟩] [⟨⟨2024, 2, 10⟩, 2000, "餐饮"⟩]
        [] ⟨2024, 2, 20⟩).get ⟨1, by decide⟩).opening
      = ((weeklyFullData [⟨⟨2024, 2, 5⟩, 5000, "工资"⟩] [⟨⟨2024, 2, 10⟩, 2000, "餐饮"⟩]
        [] ⟨2024, 2, 20⟩).get ⟨0, by decide⟩).closing :=
  (c1_balance_chain [⟨⟨2024, 2, 5⟩, 5000, "工资"⟩] [⟨⟨2024, 2, 10⟩, 2000, "餐饮"⟩]
      [] ⟨2024, 2, 20⟩).2.2 0 (by decide)

section WindowLemmas

/-- With data loaded, `displayBlocks` is the anchor-window selection. -/
theorem displayBlocks_loaded (agg : List Period) (anchor : String) :
    displayBlocks true agg anchor =
      match agg.findIdx? (fun d => d.name == anchor) with
      | none => agg.drop (agg.length - 4)
      | some idx => (agg.drop idx).take 4 := rfl

end WindowLemmas

/-- C8: the display window never exceeds 4 elements; when the anchor name
occurs in the sequence the window is the contiguous slice of length up to 4
starting at the anchor's index and its first element carries the anchor
name; when no period matches, the window is the last 4 (or fewer) periods. -/
theorem c8_window_bound (agg : List Period) (anchor : String) :
    (displayBlocks true agg anchor).length ≤ 4 ∧
    ((∃ p ∈ agg, p.name = anchor) →
      ∃ i, ∃ h : i < agg.length,
        agg.findIdx? (fun d => d.name == anchor) = some i ∧
        (agg.get ⟨i, h⟩).name = anchor ∧
        displayBlocks true agg anchor = (agg.drop i).take 4 ∧
        (∀ w0 rest, displayBlocks true agg anchor = w0 :: rest → w0.name = anchor)) ∧
    ((∀ p ∈ agg, p.name ≠ anchor) →
      displayBlocks true agg anchor = agg.drop (agg.length - 4)) := by
  refine ⟨?_, ?_, ?_⟩
  · rw [displayBlocks_loaded]
    cases h : agg.findIdx? (fun d => d.name == anchor) with
    | none => simp; omega
    | some i => simp [List.length_take]
  · rintro ⟨p, hp, hname⟩
    have hany : agg.any (fun d => d.name == anchor) = true :=
      List.any_eq_true.mpr ⟨p, hp, by simp [hname]⟩
    have hsome : (agg.findIdx? (fun d => d.name == anchor)).isSome := by
      rw [List.findIdx?_isSome, hany]
    obtain ⟨i, hi⟩ := Option.isSome_iff_exists.mp hsome
    obtain ⟨hlt, hpi, -⟩ := List.findIdx?_eq_some_iff_getElem.mp hi
    have hni : (agg.get ⟨i, hlt⟩).name = anchor := by
      simpa [List.get_eq_getElem] using hpi
    refine ⟨i, hlt, hi, hni, by rw [displayBlocks_loaded, hi], ?_⟩
    intro w0 rest heq
    rw [displayBlocks_loaded, hi] at heq
    have heq2 : (agg.drop i).take 4 = w0 :: rest := heq
    rw [List.drop_eq_getElem_cons hlt] at heq2
    simp only [List.take_succ_cons] at heq2
    have : agg[i] = w0 := (List.cons.injEq _ _ _ _).mp heq2 |>.1
    rw [← this]
    simpa [List.get_eq_getElem] using hni
  · intro hall
    have hnone : agg.findIdx? (fun d => d.name == anchor) = none :=
      List.findIdx?_eq_none_iff.mpr (fun x hx => by simp [hall x hx])
    rw [displayBlocks_loaded, hnone]

/-- Witness for C8 on the sample ledger (anchor present at index 0). -/
theorem c8_window_bound_witness :
    (displayBlocks true sampleMonthly "2024年3月").length ≤ 4 ∧
    displayBlocks true sampleMonthly "2024年3月" = (sampleMonthly.drop 0).take 4 := by
  have h := c8_window_bound sampleMonthly "2024年3月"
  obtain ⟨i, hlt, hsome, hname, heq, hhead⟩ :=
    h.2.1 ⟨sampleMonthly.get ⟨0, by decide⟩, List.get_mem _ _ _, by decide⟩
  have hi0 : i = 0 := by
    have h0 : sampleMonthly.findIdx? (fun d => d.name == "2024年3月") = some 0 := by decide
    simpa using hsome.symm.trans h0
  rw [hi0] at heq
  exact ⟨h.1, heq⟩

/-- C9: for a non-empty aggregated sequence, the default anchor is the name
of the period containing today under the active granularity whenever such a
period exists in the sequence, and otherwise the name of the last period. -/
theorem c9_default_anchor (agg : List Period) (viewType : String) (today : JSDate)
    (hne : agg ≠ []) :
    ((∃ p ∈ agg, p.name = getPeriodNameFromDate today viewType) →
        defaultAnchor agg viewType today
          = some (getPeriodNameFromDate today viewType)) ∧
    ((∀ p ∈ agg, p.name ≠ getPeriodNameFromDate today viewType) →
        ∀ plast, agg.getLast? = some plast →
          defaultAnchor agg viewType today = some plast.name) := by
  have hlen : agg.length > 0 := List.length_pos.mpr hne
  constructor
  · rintro ⟨p, hp, hname⟩
    have hany : agg.any (fun d => d.name == getPeriodNameFromDate today viewType) = true :=
      List.any_eq_true.mpr ⟨p, hp, by simp [hname]⟩
    simp [defaultAnchor, hlen, hany]
  · intro hall plast hlast
    have hany : agg.any (fun d => d.name == getPeriodNameFromDate today viewType) = false := by
      rw [← Bool.not_eq_true, List.any_eq_true]
      rintro ⟨x, hx, hbx⟩
      exact hall x hx (by simpa using hbx)
    simp [defaultAnchor, hlen, hany, hlast]

/-- Witness for C9 on the sample ledger (today falls in the only period). -/
theorem c9_default_anchor_witness :
    defaultAnchor sampleMonthly "monthly" sampleToday = some "2024年3月" := by
  have h := (c9_default_anchor sampleMonthly "monthly" sampleToday (by decide)).1
    ⟨sampleMonthly.get ⟨0, by decide⟩, List.get_mem _ _ _, by decide⟩
  simpa using h

/-- C10: when the anchor is absent from a non-empty sequence
(`findIndex` is `-1`), a forward step selects the first period
(the subsequent lookup index is 0, inside `[0, length-1]`), while a
backward step leaves the anchor unchanged. -/
theorem c10_nav_missing_anchor (agg : List Period) (anchor : String)
    (hne : agg ≠ []) (hmiss : agg.findIdx? (fun d => d.name == anchor) = none) :
    navStep agg anchor true = anchor ∧
    navStep agg anchor false = nameAtIdx agg 0 ∧
    agg.findIdx? (fun d => d.name == navStep agg anchor false) = some 0 := by
  have hIdx : findIndexJS (fun d => d.name == anchor) agg = -1 := by
    simp [findIndexJS, hmiss]
  cases agg with
  | nil => exact absurd rfl hne
  | cons p0 rest =>
    have hlt : (-1 : Int) < ((p0 :: rest).length : Int) - 1 := by
      simp; omega
    have hfwd : navStep (p0 :: rest) anchor false = p0.name := by
      simp only [navStep, hIdx, hlt, if_true]
      rfl
    refine ⟨?_, ?_, ?_⟩
    · simp [navStep, hIdx]
    · rw [hfwd]; rfl
    · rw [hfwd]
      simp [List.findIdx?_cons]

/-- Witness for C10 on the sample ledger with a missing anchor name. -/
theorem c10_nav_missing_anchor_witness :
    navStep sampleMonthly "不存在的期间" true = "不存在的期间" ∧
    navStep sampleMonthly "不存在的期间" false = nameAtIdx sampleMonthly 0 ∧
    sampleMonthly.findIdx?
      (fun d => d.name == navStep sampleMonthly "不存在的期间" false) = some 0 :=
  c10_nav_missing_anchor sampleMonthly "不存在的期间" (by decide) (by decide)

/-- C2: each semi-monthly first-half period's emergencyFund is the value of
week 2 of its month (0 when no such week exists), each second-half period's
is that of week 4, and each monthly period's is that of week 4 — a
snapshot, not a sum over the constituent weeks. -/
theorem c2_ef_snapshot (wfd : List BalancedWeek) :
    (∀ p ∈ aggregatedData "semi-monthly" wfd,
      (p.subType = some "上半月" →
        p.emergencyFund = (match findWeek wfd p.year p.month 2 with
          | some w => w.emergencyFund
          | none => 0)) ∧
      (p.subType = some "下半月" →
        p.emergencyFund = (match findWeek wfd p.year p.month 4 with
          | some w => w.emergencyFund
          | none => 0))) ∧
    (∀ p ∈ aggregatedData "monthly" wfd,
      p.emergencyFund = (match findWeek wfd p.year p.month 4 with
        | some w => w.emergencyFund
        | none => 0)) := by
  constructor
  · intro p hp
    rw [show aggregatedData "semi-monthly" wfd
        = (buildGroups true wfd).map (fun kg => finishGroup "semi-monthly" wfd kg.2)
      from rfl] at hp
    obtain ⟨kg, -, rfl⟩ := List.mem_map.mp hp
    constructor
    · intro hsub
      have hs : kg.2.subType = "上半月" := by simpa [finishGroup] using hsub
      simp [finishGroup, efValueOf, hs]
    · intro hsub
      have hs : kg.2.subType = "下半月" := by simpa [finishGroup] using hsub
      simp [finishGroup, efValueOf, hs]
  · intro p hp
    rw [show aggregatedData "monthly" wfd
        = (buildGroups false wfd).map (fun kg => finishGroup "monthly" wfd kg.2)
      from rfl] at hp
    obtain ⟨kg, -, rfl⟩ := List.mem_map.mp hp
    simp [finishGroup, efValueOf]

/-- Witness for C2 on the sample ledger: weekly emergency-fund values are
`[0, 10, 0, 20]`, the first half snapshots week 2 (10), the second half and
the month snapshot week 4 (20) — not the sum 30. -/
theorem c2_ef_snapshot_witness :
    ((sampleSemi.get ⟨0, by decide⟩).emergencyFund
        = (match findWeek sampleWeekly (sampleSemi.get ⟨0, by decide⟩).year
              (sampleSemi.get ⟨0, by decide⟩).month 2 with
           | some w => w.emergencyFund
           | none => 0)) ∧
    ((sampleMonthly.get ⟨0, by decide⟩).emergencyFund
        = (match findWeek sampleWeekly (sampleMonthly.get ⟨0, by decide⟩).year
              (sampleMonthly.get ⟨0, by decide⟩).month 4 with
           | some w => w.emergencyFund
           | none => 0)) ∧
    (sampleMonthly.get ⟨0, by decide⟩).emergencyFund = 20 :=
  ⟨((c2_ef_snapshot sampleWeekly).1 (sampleSemi.get ⟨0, by decide⟩)
      (List.get_mem _ _ _)).1 (by decide),
   (c2_ef_snapshot sampleWeekly).2 (sampleMonthly.get ⟨0, by decide⟩)
      (List.get_mem _ _ _),
   by decide⟩

/-- C5 as stated is false: in the weekly branch the source returns the
`BalancedWeek` objects unchanged, so no `net` field is computed; here a
concrete weekly aggregation has an element whose `net` is absent. -/
theorem c5_counterexample :
    ¬ (∀ p ∈ aggregatedData "weekly" sampleWeekly,
        p.net = some (p.income - p.expense)) := by
  intro h
  have h0 := h ((aggregatedData "weekly" sampleWeekly).get ⟨0, by decide⟩)
    (List.get_mem _ _ _)
  revert h0
  decide

/-- C5 amended: for granularity `weekly` the aggregator output is the
weekly sequence promoted element-wise — same order and length, every
field including emergencyFund copied as-is — but no `net` field is
computed (it is absent on every element). -/
theorem c5_weekly_promote (wfd : List BalancedWeek) :
    aggregatedData "weekly" wfd = wfd.map promote ∧
    (aggregatedData "weekly" wfd).length = wfd.length ∧
    (∀ i (h : i < (aggregatedData "weekly" wfd).length) (hw : i < wfd.length),
        (aggregatedData "weekly" wfd).get ⟨i, h⟩ = promote (wfd.get ⟨i, hw⟩)) ∧
    (∀ p ∈ aggregatedData "weekly" wfd, p.net = none) ∧
    (∀ w : BalancedWeek, (promote w).emergencyFund = w.emergencyFund ∧
        (promote w).income = w.income ∧ (promote w).expense = w.expense ∧
        (promote w).name = w.name ∧ (promote w).net = none) := by
  have hmap : aggregatedData "weekly" wfd = wfd.map promote := rfl
  refine ⟨hmap, by rw [hmap]; simp, ?_, ?_, ?_⟩
  · intro i h hw
    have : (wfd.map promote).get ⟨i, by simpa using hw⟩ = promote (wfd.get ⟨i, hw⟩) := by
      simp
    simpa [hmap] using this
  · intro p hp
    rw [hmap] at hp
    obtain ⟨w, -, rfl⟩ := List.mem_map.mp hp
    rfl
  · intro w
    exact ⟨rfl, rfl, rfl, rfl, rfl⟩

/-- Witness for the amended C5 on the sample ledger. -/
theorem c5_weekly_promote_witness :
    (aggregatedData "weekly" sampleWeekly).get ⟨0, by decide⟩
      = promote (sampleWeekly.get ⟨0, by decide⟩) ∧
    ((aggregatedData "weekly" sampleWeekly).get ⟨0, by decide⟩).net = none :=
  ⟨(c5_weekly_promote sampleWeekly).2.2.1 0 (by decide) (by decide),
   (c5_weekly_promote sampleWeekly).2.2.2.1
      ((aggregatedData "weekly" sampleWeekly).get ⟨0, by decide⟩)
      (List.get_mem _ _ _)⟩

/-- C3 as stated is false: the source guard compares calendar years only
(`end.getFullYear() - curr.getFullYear() > 10`), so a computed span of 131
months (10 years 11 months, which exceeds 10 years) from 2014-01 to
2024-12 passes the guard and yields a non-empty sequence. -/
theorem c3_counterexample :
    rangeMonthSpan [⟨⟨2014, 0, 5⟩, 100, "收入"⟩] [] [] ⟨2024, 11, 20⟩ = some 131 ∧
    120 < 131 ∧
    weeklyFullData [⟨⟨2014, 0, 5⟩, 100, "收入"⟩] [] [] ⟨2024, 11, 20⟩ ≠ [] := by
  refine ⟨by decide, by norm_num, ?_⟩
  rw [weeklyFullData_of_dates [⟨⟨2014, 0, 5⟩, 100, "收入"⟩] [] [] ⟨2024, 11, 20⟩
      ⟨2014, 0, 5⟩ [] rfl,
    bucketsAndRoll_guard_false _ _ _ _ _ (by decide)]
  intro hcon
  have hlen := congrArg List.length hcon
  rw [rollBalances_length, populate_length, populate_length, populate_length,
    buildSkeleton_length] at hlen
  exact absurd hlen (by decide)

/-- C3 amended: for a non-empty input of valid calendar dates the
bucketizer is empty exactly when the difference of the calendar years of
the range endpoints exceeds 10 (the guard the source actually evaluates);
in particular a month span of at most 120 months never yields empty, but
spans up to 131 months also pass the guard. -/
theorem c3_safety_guard (inc exp efs : List DataItem) (today : JSDate)
    (d : JSDate) (ds : List JSDate)
    (hd : (inc ++ exp ++ efs).map DataItem.date = d :: ds)
    (hday : ∀ x ∈ d :: (ds ++ [today]), x.day ≤ 31)
    (hmon : ∀ x ∈ d :: (ds ++ [today]), x.month0 ≤ 11) :
    (weeklyFullData inc exp efs today = [] ↔
      ((maximalDate d (ds ++ [today])).year : Int)
          - ((minimalDate d ds).year : Int) > 10) ∧
    (∀ n, rangeMonthSpan inc exp efs today = some n → n ≤ 120 →
      weeklyFullData inc exp efs today ≠ []) := by
  have h1 : dOrd (minimalDate d ds) ≤ dOrd d := minimalDate_le d ds
  have h2 : dOrd d ≤ dOrd (maximalDate d (ds ++ [today])) :=
    maximalDate_ge d (ds ++ [today])
  have hmaxmem : maximalDate d (ds ++ [today]) ∈ d :: (ds ++ [today]) :=
    maximalDate_mem d (ds ++ [today])
  have hminmem0 : minimalDate d ds ∈ d :: ds := minimalDate_mem d ds
  have hminmem : minimalDate d ds ∈ d :: (ds ++ [today]) := by
    rcases List.mem_cons.mp hminmem0 with h | h
    · rw [h]; exact List.mem_cons_self _ _
    · exact List.mem_cons_of_mem _ (List.mem_append_left _ h)
  have hmaxday : (maximalDate d (ds ++ [today])).day ≤ 31 := hday _ hmaxmem
  have hse : (minimalDate d ds).year * 12 + (minimalDate d ds).month0
      ≤ (maximalDate d (ds ++ [today])).year * 12
          + (maximalDate d (ds ++ [today])).month0 :=
    monthIdx_le_of_dOrd_le (le_trans h1 h2) hmaxday
  rw [weeklyFullData_of_dates inc exp efs today d ds hd]
  constructor
  · constructor
    · intro hempty
      by_contra hg
      rw [bucketsAndRoll_guard_false _ _ _ _ _ hg] at hempty
      have hlen := congrArg List.length hempty
      rw [rollBalances_length, populate_length, populate_length, populate_length,
        buildSkeleton_length] at hlen
      simp only [List.length_nil] at hlen
      omega
    · intro hg
      exact bucketsAndRoll_guard_true _ _ _ _ _ hg
  · intro n hspan hn
    unfold rangeMonthSpan at hspan
    rw [hd] at hspan
    have hn2 : (maximalDate d (ds ++ [today])).year * 12
          + (maximalDate d (ds ++ [today])).month0
        - ((minimalDate d ds).year * 12 + (minimalDate d ds).month0) = n := by
      simpa using hspan
    have hminmon : (minimalDate d ds).month0 ≤ 11 := hmon _ hminmem
    have hmaxmon : (maximalDate d (ds ++ [today])).month0 ≤ 11 := hmon _ hmaxmem
    have hg : ¬ (((maximalDate d (ds ++ [today])).year : Int)
        - ((minimalDate d ds).year : Int) > 10) := by
      omega
    rw [bucketsAndRoll_guard_false _ _ _ _ _ hg]
    intro hcon
    have hlen := congrArg List.length hcon
    rw [rollBalances_length, populate_length, populate_length, populate_length,
      buildSkeleton_length] at hlen
    simp only [List.length_nil] at hlen
    omega

/-- Witness for the amended C3 on the sample ledger (span of one month,
guard passes, output non-empty). -/
theorem c3_safety_guard_witness :
    (weeklyFullData sampleIncomes sampleExpenses sampleEF sampleToday = [] ↔
      ((maximalDate ⟨2024, 2, 5⟩ ([⟨2024, 2, 10⟩, ⟨2024, 2, 9⟩, ⟨2024, 2, 25⟩]
          ++ [sampleToday])).year : Int)
        - ((minimalDate ⟨2024, 2, 5⟩ [⟨2024, 2, 10⟩, ⟨2024, 2, 9⟩, ⟨2024, 2, 25⟩]).year
            : Int) > 10) ∧
    weeklyFullData sampleIncomes sampleExpenses sampleEF sampleToday ≠ [] := by
  have h := c3_safety_guard sampleIncomes sampleExpenses sampleEF sampleToday
    ⟨2024, 2, 5⟩ [⟨2024, 2, 10⟩, ⟨2024, 2, 9⟩, ⟨2024, 2, 25⟩]
    (by decide) (by decide) (by decide)
  exact ⟨h.1, h.2 0 (by decide) (by decide)⟩

/-- C6: an income transaction whose category contains 期初余额 or 现金备用
contributes to no bucket's income (every bucket's income equals the
matching sum with the transaction removed), while an emergency-fund
transaction — with any category, including the excluded strings — adds its
amount to the emergencyFund of the bucket whose coordinates match its
date. -/
theorem c6_category_exclusion (incomes expenses efs : List DataItem) (today : JSDate)
    (t : DataItem)
    (hcat : strIncludes t.category "期初余额" = true
        ∨ strIncludes t.category "现金备用" = true) :
    (∀ pre post, incomes = pre ++ t :: post →
      ∀ b ∈ weeklyFullData incomes expenses efs today,
        b.income = matchingSum (pre ++ post) FlowField.income b.key) ∧
    (∀ b ∈ weeklyFullData incomes expenses efs today,
      b.emergencyFund = matchingSum efs FlowField.emergencyFund b.key) ∧
    (∀ pre post, efs = pre ++ t :: post →
      ∀ b ∈ weeklyFullData incomes expenses efs today,
        b.year = t.date.year → b.month = t.date.month0 + 1 →
        b.week = getWeekIndex t.date.day →
          b.emergencyFund = matchingSum pre FlowField.emergencyFund b.key
            + t.amount + matchingSum post FlowField.emergencyFund b.key) := by
  have hskip : skipItem FlowField.income t = true := by
    rcases hcat with h | h <;> simp [skipItem, h]
  refine ⟨?_, ?_, ?_⟩
  · intro pre post hsplit b hb
    have hc := weeklyFullData_bucket_sums incomes expenses efs today b hb
    rw [hc.1, hsplit, matchingSum_append,
      show (t :: post) = [t] ++ post from rfl, matchingSum_append,
      matchingSum_skipped t b.key hskip, matchingSum_append]
    omega
  · intro b hb
    exact (weeklyFullData_bucket_sums incomes expenses efs today b hb).2.2.1
  · intro pre post hsplit b hb hy hm hw
    have hc := weeklyFullData_bucket_sums incomes expenses efs today b hb
    have hkey : itemWeekKey t = b.key := by
      rw [hc.2.2.2.1, itemWeekKey, hy, hm, hw]
    rw [hc.2.2.1, hsplit, matchingSum_append,
      show (t :: post) = [t] ++ post from rfl, matchingSum_append,
      show matchingSum [t] FlowField.emergencyFund b.key = t.amount by
        rw [matchingSum_cons, matchingSum_nil]
        simp [skipItem, hkey]]
    omega

/-- Witness for C6: the 1,000,000 balance carry-in leaves week-1 income at
5000, and the emergency-fund entry with the same category string still
lands on week 2. -/
theorem c6_category_exclusion_witness :
    ((weeklyFullData c6Incomes [] c6EF ⟨2024, 2, 20⟩).get ⟨0, by decide⟩).income
      = matchingSum [⟨⟨2024, 2, 5⟩, 5000, "工资"⟩] FlowField.income
          ((weeklyFullData c6Incomes [] c6EF ⟨2024, 2, 20⟩).get ⟨0, by decide⟩).key ∧
    ((weeklyFullData c6Incomes [] c6EF ⟨2024, 2, 20⟩).get ⟨0, by decide⟩).income
      = 5000 ∧
    ((weeklyFullData c6Incomes [] c6EF ⟨2024, 2, 20⟩).get ⟨1, by decide⟩).emergencyFund
      = matchingSum [] FlowField.emergencyFund
          ((weeklyFullData c6Incomes [] c6EF ⟨2024, 2, 20⟩).get ⟨1, by decide⟩).key
        + 10 + matchingSum [] FlowField.emergencyFund
          ((weeklyFullData c6Incomes [] c6EF ⟨2024, 2, 20⟩).get ⟨1, by decide⟩).key := by
  have h := c6_category_exclusion c6Incomes [] c6EF ⟨2024, 2, 20⟩
    ⟨⟨2024, 2, 6⟩, 1000000, "期初余额-2024"⟩ (Or.inl (by decide))
  refine ⟨h.1 [⟨⟨2024, 2, 5⟩, 5000, "工资"⟩] [] rfl _ (List.get_mem _ _ _), by decide, ?_⟩
  have h3 := c6_category_exclusion c6Incomes [] c6EF ⟨2024, 2, 20⟩
    ⟨⟨2024, 2, 9⟩, 10, "期初余额-2024"⟩ (Or.inl (by decide))
  exact h3.2.2 [] [] rfl _ (List.get_mem _ _ _) (by decide) (by decide) (by decide)

/-- C4: for every non-empty input within the safety bound, every
`(year, month)` of the computed range owns exactly 4 buckets in the output,
with weekOfMonth values 1, 2, 3, 4 in order; buckets matched by no
transaction carry zero income, expense and emergencyFund. -/
theorem c4_bucket_completeness (inc exp efs : List DataItem) (today : JSDate)
    (d : JSDate) (ds : List JSDate)
    (hd : (inc ++ exp ++ efs).map DataItem.date = d :: ds)
    (hg : ¬ (((maximalDate d (ds ++ [today])).year : Int)
        - ((minimalDate d ds).year : Int) > 10)) :
    (∀ y m : Nat, 0 < m → m ≤ 12 →
      (minimalDate d ds).year * 12 + (minimalDate d ds).month0 ≤ y * 12 + (m - 1) →
      y * 12 + (m - 1) ≤ (maximalDate d (ds ++ [today])).year * 12
          + (maximalDate d (ds ++ [today])).month0 →
      ((weeklyFullData inc exp efs today).filter
          (fun w => w.year == y && w.month == m)).map wTriple
        = [(y, m, 1), (y, m, 2), (y, m, 3), (y, m, 4)]) ∧
    (∀ b ∈ weeklyFullData inc exp efs today,
      (∀ it ∈ inc ++ exp ++ efs, itemWeekKey it ≠ b.key) →
      b.income = 0 ∧ b.expense = 0 ∧ b.emergencyFund = 0) := by
  constructor
  · intro y m hm1 hm2 hs he
    rw [weeklyFullData_of_dates inc exp efs today d ds hd,
      bucketsAndRoll_guard_false _ _ _ _ _ hg]
    have hcomm : ∀ (l : List BalancedWeek),
        ((l.filter (fun w => w.year == y && w.month == m)).map wTriple)
          = (l.map wTriple).filter (fun tr => tr.1 == y && tr.2.1 == m) := by
      intro l
      rw [List.filter_map]
      rfl
    rw [hcomm, rollBalances_triples, populate_triples, populate_triples,
      populate_triples, skel_triples_filter, if_pos ⟨hm1, hm2, hs, by omega⟩]
  · intro b hb hnone
    have hc := weeklyFullData_bucket_sums inc exp efs today b hb
    refine ⟨?_, ?_, ?_⟩
    · rw [hc.1, matchingSum_eq_zero inc _ _ (fun it hit => hnone it (by
        simp only [List.mem_append]; exact Or.inl (Or.inl hit)))]
    · rw [hc.2.1, matchingSum_eq_zero exp _ _ (fun it hit => hnone it (by
        simp only [List.mem_append]; exact Or.inl (Or.inr hit)))]
    · rw [hc.2.2.1, matchingSum_eq_zero efs _ _ (fun it hit => hnone it (by
        simp only [List.mem_append]; exact Or.inr hit))]

/-- Witness for C4 on the sample ledger: March 2024 owns exactly the four
week buckets, and week 3 (touched by no transaction) is all-zero. -/
theorem c4_bucket_completeness_witness :
    ((weeklyFullData sampleIncomes sampleExpenses sampleEF sampleToday).filter
        (fun w => w.year == 2024 && w.month == 3)).map wTriple
      = [(2024, 3, 1), (2024, 3, 2), (2024, 3, 3), (2024, 3, 4)] ∧
    (((weeklyFullData sampleIncomes sampleExpenses sampleEF sampleToday).get
        ⟨2, by decide⟩).income = 0 ∧
      ((weeklyFullData sampleIncomes sampleExpenses sampleEF sampleToday).get
        ⟨2, by decide⟩).expense = 0 ∧
      ((weeklyFullData sampleIncomes sampleExpenses sampleEF sampleToday).get
        ⟨2, by decide⟩).emergencyFund = 0) := by
  have h := c4_bucket_completeness sampleIncomes sampleExpenses sampleEF sampleToday
    ⟨2024, 2, 5⟩ [⟨2024, 2, 10⟩, ⟨2024, 2, 9⟩, ⟨2024, 2, 25⟩] (by decide) (by decide)
  exact ⟨h.1 2024 3 (by norm_num) (by norm_num) (by decide) (by decide),
    h.2 _ (List.get_mem _ _ _) (by decide)⟩

/-- C7: every monthly aggregated period owns exactly the 4 weeks of its
month (in order 1..4) as constituent weeks; its income and expense are the
sums over those weeks, its opening is the first member's opening, its
closing is the closing of week 4 of that month (the last member in append
order, which is also the week the source's `find` locates), and its net is
income minus expense. -/
theorem c7_monthly_aggregation (inc exp efs : List DataItem) (today : JSDate) :
    ∀ p ∈ aggregatedData "monthly" (weeklyFullData inc exp efs today),
      ∃ ws, p.weeks = some ws ∧
        ws.map wTriple = [(p.year, p.month, 1), (p.year, p.month, 2),
            (p.year, p.month, 3), (p.year, p.month, 4)] ∧
        p.income = (ws.map (fun w => w.income)).sum ∧
        p.expense = (ws.map (fun w => w.expense)).sum ∧
        (∀ w0 rest, ws = w0 :: rest → p.opening = w0.opening) ∧
        (∀ wlast, ws.getLast? = some wlast →
            p.closing = wlast.closing ∧ wlast.week = 4) ∧
        (∀ w4, findWeek (weeklyFullData inc exp efs today) p.year p.month 4 = some w4 →
            p.closing = w4.closing) ∧
        p.net = some (p.income - p.expense) := by
  intro p hp
  rw [show aggregatedData "monthly" (weeklyFullData inc exp efs today)
      = (buildGroups false (weeklyFullData inc exp efs today)).map
          (fun kg => finishGroup "monthly" (weeklyFullData inc exp efs today) kg.2)
    from rfl] at hp
  obtain ⟨kg, hkg, rfl⟩ := List.mem_map.mp hp
  obtain ⟨-, hgood, -⟩ := buildGroups_good false (weeklyFullData inc exp efs today)
  obtain ⟨hweeks, hinc, hexp, -, hnemp, hhead⟩ := hgood kg hkg
  obtain ⟨w0, rest0, hw0⟩ := List.exists_cons_of_ne_nil hnemp
  obtain ⟨hk, hop, hyr, hmo, -, -⟩ := hhead w0 rest0 hw0
  rcases weeklyFullData_eq_cases inc exp efs today with hcase | ⟨s, c, hcase⟩
  · exfalso
    rw [hcase] at hweeks
    rw [hweeks] at hw0
    cases hw0
  · have htripeq : (weeklyFullData inc exp efs today).map wTriple
        = (buildSkeleton s c).map bTriple := by
      rw [hcase, rollBalances_triples, populate_triples, populate_triples,
        populate_triples]
    have htnd : ((weeklyFullData inc exp efs today).map wTriple).Nodup := by
      rw [htripeq]; exact skel_triples_nodup c s
    have hw0mem : w0 ∈ weeklyFullData inc exp efs today := by
      have hmm : w0 ∈ kg.2.weeks := by rw [hw0]; exact List.mem_cons_self _ _
      rw [hweeks] at hmm
      exact List.mem_of_mem_filter hmm
    have hfeq : (weeklyFullData inc exp efs today).filter
          (fun w => wGroupKey false w == kg.1)
        = (weeklyFullData inc exp efs today).filter
          (fun w => w.year == w0.year && w.month == w0.month) := by
      apply List.filter_congr
      intro w hw
      rw [hk]
      by_cases hkk : wGroupKey false w = wGroupKey false w0
      · obtain ⟨h1, h2⟩ := wGroupKey_monthly_inj hkk
        simp [hkk, h1, h2]
      · have hne : ¬(w.year = w0.year ∧ w.month = w0.month) := by
          rintro ⟨h1, h2⟩
          apply hkk
          simp only [wGroupKey, Bool.false_eq_true, if_false, h1, h2]
        have hL : (wGroupKey false w == wGroupKey false w0) = false :=
          beq_eq_false_iff_ne.mpr hkk
        have hR : (w.year == w0.year && w.month == w0.month) = false := by
          rcases not_and_or.mp hne with h1 | h1 <;>
            simp [beq_eq_false_iff_ne.mpr h1]
        rw [hL, hR]
    have hw0tr : wTriple w0 ∈ (weeklyFullData inc exp efs today).map wTriple :=
      List.mem_map_of_mem _ hw0mem
    rw [htripeq] at hw0tr
    obtain ⟨i, w, hi1, hi2, -, -, htr0⟩ := mem_skel_triples hw0tr
    have hy0 : w0.year = i / 12 := congrArg Prod.fst htr0
    have hm0 : w0.month = i % 12 + 1 := congrArg (fun pr => pr.2.1) htr0
    have hfilter : ((weeklyFullData inc exp efs today).filter
          (fun w2 => w2.year == w0.year && w2.month == w0.month)).map wTriple
        = [(w0.year, w0.month, 1), (w0.year, w0.month, 2),
           (w0.year, w0.month, 3), (w0.year, w0.month, 4)] := by
      rw [filter_coords_map_triple, htripeq, skel_triples_filter,
        if_pos ⟨by omega, by omega, by omega, by omega⟩]
    have hwtr : kg.2.weeks.map wTriple
        = [(w0.year, w0.month, 1), (w0.year, w0.month, 2),
           (w0.year, w0.month, 3), (w0.year, w0.month, 4)] := by
      rw [hweeks, hfeq, hfilter]
    refine ⟨kg.2.weeks, rfl, ?_, hinc, hexp, ?_, ?_, ?_, rfl⟩
    · show kg.2.weeks.map wTriple = [(kg.2.year, kg.2.month, 1), (kg.2.year, kg.2.month, 2),
          (kg.2.year, kg.2.month, 3), (kg.2.year, kg.2.month, 4)]
      rw [hyr, hmo, hwtr]
    · intro w1 rest1 h1
      rw [hw0] at h1
      have : w0 = w1 := (List.cons.injEq _ _ _ _).mp h1 |>.1
      rw [← this]
      exact hop
    · intro wlast hlast
      have hltr : (kg.2.weeks.map wTriple).getLast? = some (wTriple wlast) := by
        rw [List.getLast?_map, hlast]
        rfl
      rw [hwtr] at hltr
      have hltr2 : wTriple wlast = (w0.year, w0.month, 4) := by
        have hcomp : ([(w0.year, w0.month, 1), (w0.year, w0.month, 2),
            (w0.year, w0.month, 3), (w0.year, w0.month, 4)]
              : List (Nat × Nat × Nat)).getLast? = some (w0.year, w0.month, 4) := rfl
        rw [hcomp] at hltr
        exact ((Option.some.injEq _ _).mp hltr).symm
      constructor
      · show lastClosing kg.2.weeks = wlast.closing
        rw [lastClosing, hlast]
      · exact congrArg (fun pr => pr.2.2) hltr2
    · intro w4 hw4
      obtain ⟨wlast, hlast⟩ : ∃ wl, kg.2.weeks.getLast? = some wl := by
        cases hq : kg.2.weeks.getLast? with
        | none => exact absurd (List.getLast?_eq_none_iff.mp hq) hnemp
        | some wl => exact ⟨wl, rfl⟩
      have hltr : (kg.2.weeks.map wTriple).getLast? = some (wTriple wlast) := by
        rw [List.getLast?_map, hlast]
        rfl
      rw [hwtr] at hltr
      have hltr2 : wTriple wlast = (w0.year, w0.month, 4) := by
        have hcomp : ([(w0.year, w0.month, 1), (w0.year, w0.month, 2),
            (w0.year, w0.month, 3), (w0.year, w0.month, 4)]
              : List (Nat × Nat × Nat)).getLast? = some (w0.year, w0.month, 4) := rfl
        rw [hcomp] at hltr
        exact ((Option.some.injEq _ _).mp hltr).symm
      have hlmem : wlast ∈ kg.2.weeks :=
        List.mem_of_mem_getLast? (show wlast ∈ kg.2.weeks.getLast? by rw [hlast]; rfl)
      have hlmem2 : wlast ∈ weeklyFullData inc exp efs today := by
        rw [hweeks] at hlmem
        exact List.mem_of_mem_filter hlmem
      have hfound : findWeek (weeklyFullData inc exp efs today) w0.year w0.month 4
          = some wlast :=
        findWeek_of_nodup _ htnd wlast hlmem2 w0.year w0.month 4 hltr2
      have hpy : (finishGroup "monthly" (weeklyFullData inc exp efs today) kg.2).year
          = w0.year := hyr
      have hpm : (finishGroup "monthly" (weeklyFullData inc exp efs today) kg.2).month
          = w0.month := hmo
      rw [hpy, hpm, hfound] at hw4
      have hw4l : w4 = wlast := (Option.some.injEq _ _).mp hw4.symm
      rw [hw4l]
      show lastClosing kg.2.weeks = wlast.closing
      rw [lastClosing, hlast]

/-- Witness for C7 on the sample ledger (single month, March 2024). -/
theorem c7_monthly_aggregation_witness :
    ∃ ws, (sampleMonthly.get ⟨0, by decide⟩).weeks = some ws ∧
      ws.map wTriple
        = [((sampleMonthly.get ⟨0, by decide⟩).year,
              (sampleMonthly.get ⟨0, by decide⟩).month, 1),
           ((sampleMonthly.get ⟨0, by decide⟩).year,
              (sampleMonthly.get ⟨0, by decide⟩).month, 2),
           ((sampleMonthly.get ⟨0, by decide⟩).year,
              (sampleMonthly.get ⟨0, by decide⟩).month, 3),
           ((sampleMonthly.get ⟨0, by decide⟩).year,
              (sampleMonthly.get ⟨0, by decide⟩).month, 4)] ∧
      (sampleMonthly.get ⟨0, by decide⟩).income = (ws.map (fun w => w.income)).sum ∧
      (sampleMonthly.get ⟨0, by decide⟩).expense = (ws.map (fun w => w.expense)).sum ∧
      (∀ w0 rest, ws = w0 :: rest →
          (sampleMonthly.get ⟨0, by decide⟩).opening = w0.opening) ∧
      (∀ wlast, ws.getLast? = some wlast →
          (sampleMonthly.get ⟨0, by decide⟩).closing = wlast.closing ∧ wlast.week = 4) ∧
      (∀ w4, findWeek sampleWeekly (sampleMonthly.get ⟨0, by decide⟩).year
            (sampleMonthly.get ⟨0, by decide⟩).month 4 = some w4 →
          (sampleMonthly.get ⟨0, by decide⟩).closing = w4.closing) ∧
      (sampleMonthly.get ⟨0, by decide⟩).net
        = some ((sampleMonthly.get ⟨0, by decide⟩).income
            - (sampleMonthly.get ⟨0, by decide⟩).expense) :=
  c7_monthly_aggregation sampleIncomes sampleExpenses sampleEF sampleToday
    (sampleMonthly.get ⟨0, by decide⟩) (List.get_mem _ _ _)

end ALT
